import Mathlib

/-!
Go-Socks5: a shallow embedding of `gosocks5.go`.

The handler of one accepted connection is embedded as pure functions over an
explicit model of its environment:

* a byte is a `Fin 256`; a Go `string` is the list of its bytes;
* the client connection delivers its data as a list of non-empty segments, one
  per `Read` on the socket, followed by end-of-stream; `bufio.Reader` keeps the
  part of the last segment that has not been consumed yet;
* an `io.Writer` accepts bytes until its peer goes away (`room`);
* `net.Dial` is a parameter of the handler;
* the functions of the Go standard library that the handler calls (`io`, `bufio`,
  `encoding/binary`, `net`, `net/netip`, `strconv`) are embedded from their Go
  sources, under their Go names.
-/

namespace GoSocks5

/-! ## Bytes, strings, errors -/

/-- A Go `byte`. -/
abbrev Byte := Fin 256

/-- A Go `string`: an immutable sequence of bytes. -/
abbrev GoString := List Byte

/-- The bytes of an ASCII literal. -/
def str (s : String) : GoString := s.toList.map (fun c => Fin.ofNat c.toNat)

/-- The Go `error` values the handler can see. -/
inductive Error where
  /-- Value `io.EOF`. -/
  | EOF
  /-- Value `io.ErrUnexpectedEOF`. -/
  | ErrUnexpectedEOF
  /-- Value `errors.New(msg)`. -/
  | New (msg : String)
  /-- A failed `Write` on a connection. -/
  | ErrWrite
  deriving DecidableEq, Repr

deriving instance DecidableEq for Except

/-! ## Constants of `gosocks5.go` -/

def socks5Version : Byte := 0x05
def authNoAuthenticationRequired : Byte := 0x00
def authNoAcceptableMethods : Byte := 0xff
def connectCmd : Byte := 0x01
def ipv4Addr : Byte := 0x01
def domainAddr : Byte := 0x03
def ipv6Addr : Byte := 0x04
def repSuccess : Byte := 0x00
def repServerFailure : Byte := 0x01
def repHostUnreachable : Byte := 0x04

/-! ## The environment: connections, `bufio.Reader`, `io.Writer` -/

/-- One successful `Read` on a TCP connection: it blocks until at least one byte
is there, so a segment is never empty. -/
structure Segment where
  head : Byte
  tail : List Byte
  deriving DecidableEq, Repr

/-- The bytes of a segment. -/
def Segment.toList (s : Segment) : List Byte := s.head :: s.tail

/-- The bytes of a list of segments, in order. -/
def flatten : List Segment → List Byte
  | [] => []
  | s :: ss => s.toList ++ flatten ss

/-- A `bufio.Reader` over a connection: `buf` is what has been read from the
socket and not consumed yet (`b.buf[b.r:b.w]`), `conn` is what the socket still
delivers, one segment per `Read`, before end-of-stream. -/
structure Reader where
  buf : List Byte
  conn : List Segment
  deriving DecidableEq, Repr

/-- Call `bufio.NewReader(conn)`. -/
def NewReader (conn : List Segment) : Reader := ⟨[], conn⟩

/-- The bytes the reader has still to hand out: the whole unread client stream. -/
def Reader.stream (r : Reader) : List Byte := r.buf ++ flatten r.conn

/-- Method `(*bufio.Reader).Buffered`. -/
def Reader.Buffered (r : Reader) : Nat := r.buf.length

/-- The loop of `io.ReadAtLeast` over `(*bufio.Reader).Read`, for a destination
smaller than the reader's buffer (every read of the handler is at most 255
bytes). `got` is what earlier iterations have copied, `need` what is missing.
A `Read` hands out buffered bytes when there are some; on an empty buffer it
reads the socket once and hands out from that. -/
def readAtLeast : List Segment → List Byte → Nat → List Byte →
    Except Error (List Byte) × Reader
  | [], got, need, buf =>
    if need ≤ buf.length then
      (.ok (got ++ buf.take need), ⟨buf.drop need, []⟩)
    else
      (.error (if got ++ buf = [] then Error.EOF else Error.ErrUnexpectedEOF), ⟨[], []⟩)
  | s :: rest, got, need, buf =>
    if need ≤ buf.length then
      (.ok (got ++ buf.take need), ⟨buf.drop need, s :: rest⟩)
    else
      readAtLeast rest (got ++ buf) (need - buf.length) s.toList

/-- Call `io.ReadFull(reader, p)` with `len(p) = n`: exactly `n` bytes or an error. -/
def ReadFull (n : Nat) (r : Reader) : Except Error (List Byte) × Reader :=
  readAtLeast r.conn [] n r.buf

/-- Method `(*bufio.Reader).ReadByte`. -/
def Reader.ReadByte (r : Reader) : Except Error Byte × Reader :=
  match r.buf with
  | b :: buf => (.ok b, ⟨buf, r.conn⟩)
  | [] =>
    match r.conn with
    | [] => (.error Error.EOF, ⟨[], []⟩)
    | s :: rest => (.ok s.head, ⟨s.tail, rest⟩)

/-- The write half of a connection: `written` is what the peer has been sent,
`room` is how many more bytes it takes before writes fail (`none`: no limit). -/
structure Writer where
  written : List Byte
  room : Option Nat
  deriving DecidableEq, Repr

/-- Method `Write(p)`: the number of bytes sent and the error. All of `p` is sent,
or the part that still fits is sent and the call fails. -/
def Writer.Write (w : Writer) (p : List Byte) : (Nat × Option Error) × Writer :=
  match w.room with
  | none => ((p.length, none), ⟨w.written ++ p, none⟩)
  | some k =>
    if p.length ≤ k then ((p.length, none), ⟨w.written ++ p, some (k - p.length)⟩)
    else ((k, some Error.ErrWrite), ⟨w.written ++ p.take k, some 0⟩)

/-- Function `io.Copy(dst, src)` from a connection: every segment the source
delivers is written to `dst`, until end-of-stream (no error) or a failed write.
Returns the error, what the source has left, and the destination. -/
def ioCopy : List Segment → Writer → Option Error × List Segment × Writer
  | [], dst => (none, [], dst)
  | s :: rest, dst =>
    match dst.Write s.toList with
    | ((_, none), dst) => ioCopy rest dst
    | ((_, some err), dst) => (some err, rest, dst)

/-- Method `(*bufio.Reader).WriteTo(w)` for a reader over a TCP connection: the
buffered bytes are written first (`writeBuf`), then the connection itself is
copied to `w` until its end-of-stream (`b.rd.(io.WriterTo)`, else
`w.(io.ReaderFrom)`, else the fill loop: each of them runs to EOF). -/
def Reader.WriteTo (r : Reader) (w : Writer) : Option Error × Reader × Writer :=
  let first : (Nat × Option Error) × Writer :=
    if 0 < r.buf.length then w.Write r.buf else ((0, none), w)
  match first with
  | ((n, some err), w) => (some err, ⟨r.buf.drop n, r.conn⟩, w)
  | ((n, none), w) =>
    match ioCopy r.conn w with
    | (err, conn, w) => (err, ⟨r.buf.drop n, conn⟩, w)

/-! ## `handleHandshake` -/

/-- The `for _, method := range methods` loop of `handleHandshake`, with its
`break`: the value of `acceptable` after the loop. -/
def acceptableLoop : List Byte → Bool
  | [] => false
  | method :: methods =>
    if method = authNoAuthenticationRequired then true else acceptableLoop methods

/-- Function `handleHandshake(reader, writer)`: the returned error (`none` is
`nil`) and the reader and writer afterwards. -/
def handleHandshake (reader : Reader) (writer : Writer) : Option Error × Reader × Writer :=
  match ReadFull 2 reader with
  | (.error err, reader) => (some err, reader, writer)
  | (.ok header, reader) =>
    if header.getD 0 0 ≠ socks5Version then
      (some (Error.New "unsupported SOCKS version"), reader, writer)
    else
      let nmethods := (header.getD 1 0).val
      match ReadFull nmethods reader with
      | (.error err, reader) => (some err, reader, writer)
      | (.ok methods, reader) =>
        let acceptable := acceptableLoop methods
        if !acceptable then
          let ((_, _), writer) := writer.Write [socks5Version, authNoAcceptableMethods]
          (some (Error.New "no acceptable authentication methods"), reader, writer)
        else
          let ((_, err), writer) := writer.Write [socks5Version, authNoAuthenticationRequired]
          (err, reader, writer)

/-! ## The `net` and `encoding/binary` functions the handler calls -/

/-- Constant `net.IPv4len`. -/
def IPv4len : Nat := 4

/-- Constant `net.IPv6len`. -/
def IPv6len : Nat := 16

/-- Function `binary.BigEndian.Uint16(b)`: `uint16(b[1]) | uint16(b[0])<<8`. -/
def Uint16 (b : List Byte) : Nat :=
  ((b.getD 1 0).val ||| ((b.getD 0 0).val <<< 8)) % 65536

/-- Function `binary.BigEndian.PutUint16(b, v)` on a fresh 2-byte slice:
`b[0] = byte(v >> 8); b[1] = byte(v)`. -/
def PutUint16 (v : Nat) : List Byte := [Fin.ofNat (v >>> 8), Fin.ofNat v]

/-- Function `isZeros` of package `net`. -/
def isZeros (p : List Byte) : Bool := p.all (fun b => b = 0)

/-- Method `IP.To4`: the 4-byte form of an address, `none` (Go `nil`) when it has
none. A 16-byte IPv4-mapped address `0:0:0:0:0:ffff:a.b.c.d` has one. -/
def To4 (ip : List Byte) : Option (List Byte) :=
  if ip.length = IPv4len then some ip
  else if ip.length = IPv6len ∧ isZeros (ip.take 10) = true ∧
      ip.getD 10 0 = 0xff ∧ ip.getD 11 0 = 0xff then
    some ((ip.drop 12).take 4)
  else none

/-- The digit table `"0123456789abcdef"` of package `net/netip`. -/
def digits : List Byte := str "0123456789abcdef"

/-- Function `appendDecimal(b, x)` of `net/netip`. -/
def appendDecimal (b : List Byte) (x : Byte) : List Byte :=
  let b := if x.val ≥ 100 then b ++ [digits.getD (x.val / 100) 0] else b
  let b := if x.val ≥ 10 then b ++ [digits.getD (x.val / 10 % 10) 0] else b
  b ++ [digits.getD (x.val % 10) 0]

/-- Function `appendHex(b, x)` of `net/netip`, `x` a `uint16`. -/
def appendHex (b : List Byte) (x : Nat) : List Byte :=
  let b := if x ≥ 0x1000 then b ++ [digits.getD (x >>> 12) 0] else b
  let b := if x ≥ 0x100 then b ++ [digits.getD (x >>> 8 &&& 0xf) 0] else b
  let b := if x ≥ 0x10 then b ++ [digits.getD (x >>> 4 &&& 0xf) 0] else b
  b ++ [digits.getD (x &&& 0xf) 0]

/-- Method `Addr.appendTo4` of `net/netip` on the 4 bytes `p4`. -/
def appendTo4 (ret : List Byte) (p4 : List Byte) : List Byte :=
  let ret := appendDecimal ret (p4.getD 0 0)
  let ret := ret ++ str "."
  let ret := appendDecimal ret (p4.getD 1 0)
  let ret := ret ++ str "."
  let ret := appendDecimal ret (p4.getD 2 0)
  let ret := ret ++ str "."
  appendDecimal ret (p4.getD 3 0)

/-- Method `Addr.v6u16(i)` of `net/netip`: the `i`-th 16-bit group of a 16-byte
address, big-endian. -/
def v6u16 (ip : List Byte) (i : Nat) : Nat :=
  ((ip.getD (2 * i) 0).val <<< 8) ||| (ip.getD (2 * i + 1) 0).val

/-- The inner loop of `Addr.appendTo6`: `for j < 8 && ip.v6u16(j) == 0 { j++ }`. -/
def zerosFrom (ip : List Byte) : Nat → Nat → Nat
  | 0, j => j
  | fuel + 1, j => if j < 8 ∧ v6u16 ip j = 0 then zerosFrom ip fuel (j + 1) else j

/-- The first loop of `Addr.appendTo6`: `(zeroStart, zeroEnd)` after the search
for the longest run of zero groups, both `255` when no run has two groups. -/
def zeroRun (ip : List Byte) : Nat × Nat :=
  (List.range 8).foldl
    (fun (z : Nat × Nat) i =>
      let j := zerosFrom ip 8 i
      let l := j - i
      if l ≥ 2 ∧ l > z.2 - z.1 then (i, j) else z)
    (255, 255)

/-- The second loop of `Addr.appendTo6`, from group `i` on. -/
def appendGroups (ip : List Byte) (zeroStart zeroEnd : Nat) : Nat → Nat → List Byte → List Byte
  | 0, _, ret => ret
  | fuel + 1, i, ret =>
    if i < 8 then
      if i = zeroStart then
        let ret := ret ++ str "::"
        let i := zeroEnd
        if i ≥ 8 then ret
        else appendGroups ip zeroStart zeroEnd fuel (i + 1) (appendHex ret (v6u16 ip i))
      else
        let ret := if i > 0 then ret ++ str ":" else ret
        appendGroups ip zeroStart zeroEnd fuel (i + 1) (appendHex ret (v6u16 ip i))
    else ret

/-- Method `Addr.appendTo6` of `net/netip` for an address without zone. -/
def appendTo6 (ret : List Byte) (ip : List Byte) : List Byte :=
  let z := zeroRun ip
  appendGroups ip z.1 z.2 8 0 ret

/-- Function `hexString` of package `net`. -/
def hexString (b : List Byte) : GoString :=
  b.flatMap (fun tn => [digits.getD (tn.val >>> 4) 0, digits.getD (tn.val &&& 0xf) 0])

/-- Method `IP.String` of package `net`: `"<nil>"` for an empty address, `"?"` and
the bytes in hexadecimal for a length other than 4 and 16, dotted decimal
(`netip.AddrFrom4(p4).String()`) when `To4` gives a 4-byte form, and else
`netip.AddrFrom16(ip).String()`, which is `appendTo6` here: its own branch for
IPv4-mapped addresses is never reached, `To4` having taken them. -/
def IP.String (ip : List Byte) : GoString :=
  if ip.length = 0 then str "<nil>"
  else if ip.length ≠ IPv4len ∧ ip.length ≠ IPv6len then str "?" ++ hexString ip
  else
    match To4 ip with
    | some p4 => appendTo4 [] p4
    | none => appendTo6 [] ip

/-- Function `strconv.Itoa` on a port number. -/
def Itoa (n : Nat) : GoString := str (Nat.repr n)

/-- Function `net.JoinHostPort(host, port)`. -/
def JoinHostPort (host port : GoString) : GoString :=
  if host.contains (0x3a : Byte) then str "[" ++ host ++ str "]:" ++ port
  else host ++ str ":" ++ port

/-! ## `handleRequest` -/

/-- Function `handleRequest(reader)`: `(host, port)` or the error, and the reader
afterwards. -/
def handleRequest (reader : Reader) : Except Error (GoString × Nat) × Reader :=
  match ReadFull 4 reader with
  | (.error err, reader) => (.error err, reader)
  | (.ok reqHeader, reader) =>
    if reqHeader.getD 0 0 ≠ socks5Version then
      (.error (Error.New "invalid request version"), reader)
    else if reqHeader.getD 1 0 ≠ connectCmd then
      (.error (Error.New "unsupported command"), reader)
    else
      let addrType := reqHeader.getD 3 0
      let switch : Except Error GoString × Reader :=
        if addrType = ipv4Addr then
          match ReadFull IPv4len reader with
          | (.error err, reader) => (.error err, reader)
          | (.ok addr, reader) => (.ok (IP.String addr), reader)
        else if addrType = domainAddr then
          match reader.ReadByte with
          | (.error err, reader) => (.error err, reader)
          | (.ok domainLen, reader) =>
            match ReadFull domainLen.val reader with
            | (.error err, reader) => (.error err, reader)
            | (.ok domain, reader) => (.ok domain, reader)
        else if addrType = ipv6Addr then
          match ReadFull IPv6len reader with
          | (.error err, reader) => (.error err, reader)
          | (.ok addr, reader) => (.ok (IP.String addr), reader)
        else
          (.error (Error.New "unsupported address type"), reader)
      match switch with
      | (.error err, reader) => (.error err, reader)
      | (.ok host, reader) =>
        match ReadFull 2 reader with
        | (.error err, reader) => (.error err, reader)
        | (.ok portBytes, reader) => (.ok (host, Uint16 portBytes), reader)

/-! ## `writeReply` -/

/-- A Go `net.Addr` value: a `*net.TCPAddr` with its `IP` (`none` is the `nil`
slice) and `Port`, or an address of another kind. -/
inductive Addr where
  | TCPAddr (IP : Option (List Byte)) (Port : Int)
  | other
  deriving DecidableEq, Repr

/-- The conversion `uint16(p)` of a Go `int`. -/
def toUint16 (p : Int) : Nat := (p % 65536).toNat

/-- Function `writeReply(writer, rep, addr)`; `addr = none` is the `nil` address. -/
def writeReply (writer : Writer) (rep : Byte) (addr : Option Addr) : Option Error × Writer :=
  let tcp : Except Error (Option (List Byte) × Nat) :=
    match addr with
    | none => .ok (none, 0)
    | some (Addr.TCPAddr ip port) => .ok (ip, toUint16 port)
    | some Addr.other => .error (Error.New "address is not a TCP address")
  match tcp with
  | .error err => (some err, writer)
  | .ok (ip, port) =>
    let res : List Byte :=
      match ip with
      | none => [socks5Version, rep, 0x00, ipv4Addr, 0, 0, 0, 0, 0, 0]
      | some ip =>
        let res :=
          match To4 ip with
          | some ipv4 => [socks5Version, rep, 0x00, ipv4Addr] ++ ipv4
          | none => [socks5Version, rep, 0x00, ipv6Addr] ++ ip
        res ++ PutUint16 port
    let ((_, err), writer) := writer.Write res
    (err, writer)

/-! ## `proxyData` and `handleConnection` -/

/-- A TCP connection as the handler holds it: what the peer still sends, the
write half, whether `CloseWrite` has been called, and `LocalAddr()`. -/
structure Conn where
  incoming : List Segment
  out : Writer
  closedWrite : Bool
  LocalAddr : Option Addr
  deriving DecidableEq, Repr

/-- Function `proxyData(clientConn, targetConn)`, both of them TCP connections: the
state of the two connections once both goroutines are done. The goroutines share
no state (one reads the client and writes the target, the other the reverse), so
each is run to its end on its own half. -/
def proxyData (clientConn targetConn : Conn) : Conn × Conn :=
  let (_, clientIn, targetOut) := ioCopy clientConn.incoming targetConn.out
  let (_, targetIn, clientOut) := ioCopy targetConn.incoming clientConn.out
  (⟨clientIn, clientOut, true, clientConn.LocalAddr⟩,
   ⟨targetIn, targetOut, true, targetConn.LocalAddr⟩)

/-- What a run of `handleConnection` has done when it returns. -/
structure Outcome where
  /-- The client connection. -/
  client : Conn
  /-- What is left in the buffer of the `bufio.Reader`. -/
  buffered : List Byte
  /-- The argument of `net.Dial`, when it was called. -/
  dialed : Option GoString
  /-- The target connection, when `net.Dial` returned one. -/
  target : Option Conn
  /-- Whether `proxyData` was called. -/
  relayed : Bool
  deriving DecidableEq, Repr

/-- Function `handleConnection(clientConn)`; `dial destAddr` is
`net.Dial("tcp", destAddr)`, `none` when it fails. The socket options
(`SetNoDelay`, `SetKeepAlive`) and the deferred `Close` calls are left out. -/
def handleConnection (dial : GoString → Option Conn) (clientConn : Conn) : Outcome :=
  let reader := NewReader clientConn.incoming
  match handleHandshake reader clientConn.out with
  | (some _, reader, out) =>
    ⟨⟨reader.conn, out, false, clientConn.LocalAddr⟩, reader.buf, none, none, false⟩
  | (none, reader, out) =>
    match handleRequest reader with
    | (.error _, reader) =>
      let (_, out) := writeReply out repServerFailure none
      ⟨⟨reader.conn, out, false, clientConn.LocalAddr⟩, reader.buf, none, none, false⟩
    | (.ok (host, port), reader) =>
      let destAddr := JoinHostPort host (Itoa port)
      match dial destAddr with
      | none =>
        let (_, out) := writeReply out repHostUnreachable none
        ⟨⟨reader.conn, out, false, clientConn.LocalAddr⟩, reader.buf, some destAddr, none, false⟩
      | some targetConn =>
        match writeReply out repSuccess targetConn.LocalAddr with
        | (some _, out) =>
          ⟨⟨reader.conn, out, false, clientConn.LocalAddr⟩, reader.buf, some destAddr,
            some targetConn, false⟩
        | (none, out) =>
          let flushed : Option Error × Reader × Writer :=
            if reader.Buffered > 0 then reader.WriteTo targetConn.out
            else (none, reader, targetConn.out)
          match flushed with
          | (some _, reader, targetOut) =>
            ⟨⟨reader.conn, out, false, clientConn.LocalAddr⟩, reader.buf, some destAddr,
              some { targetConn with out := targetOut }, false⟩
          | (none, reader, targetOut) =>
            let (client, target) :=
              proxyData ⟨reader.conn, out, false, clientConn.LocalAddr⟩
                { targetConn with out := targetOut }
            ⟨client, reader.buf, some destAddr, some target, true⟩

/-! ## Definitions of the specification

The notions the claims are stated with, and the devices of their proofs. None of
them is part of the program. -/

/-- Whether a writer takes `n` more bytes. -/
def Writer.hasRoom (w : Writer) (n : Nat) : Bool :=
  match w.room with
  | none => true
  | some k => decide (n ≤ k)

/-- The dotted-decimal text of four octets, each in decimal without leading zeros. -/
def dottedDecimal (a b c d : Byte) : GoString :=
  str (Nat.repr a.val) ++ str "." ++ str (Nat.repr b.val) ++ str "." ++
    str (Nat.repr c.val) ++ str "." ++ str (Nat.repr d.val)

/-- The first 12 bytes of a 16-byte IPv4-mapped address. -/
def v4InV6Prefix : List Byte := [0, 0, 0, 0, 0, 0, 0, 0, 0, 0, 0xff, 0xff]

/-- A well-formed `CONNECT` request of the wire format:
`[0x05][0x01][reserved][addr_type][address][port:2]` with a 4-byte address for
type `0x01`, a length byte and that many name bytes for type `0x03`, a 16-byte
address for type `0x04`. -/
def validRequest : List Byte → Bool
  | ver :: cmd :: _ :: atyp :: t =>
    decide (ver = 0x05) && decide (cmd = 0x01) &&
      ((decide (atyp = 0x01) && decide (t.length = 4 + 2)) ||
       (decide (atyp = 0x03) &&
          (match t with
           | [] => false
           | L :: t => decide (t.length = L.val + 2))) ||
       (decide (atyp = 0x04) && decide (t.length = 16 + 2)))
  | _ => false

/-- The length of the address field of a request, from its address-type byte and,
for a domain, its length byte. -/
def addressFieldLength (req : List Byte) : Nat :=
  if req.getD 3 0 = 0x01 then 4
  else if req.getD 3 0 = 0x03 then 1 + (req.getD 4 0).val
  else 16

/-- The bytes of the reply that `writeReply` sends for a status and an address. -/
def replyBytes (rep : Byte) (addr : Option Addr) : List Byte :=
  (writeReply ⟨[], none⟩ rep addr).2.written

/-! ### The standard text of an IPv6 address -/

/-- The eight 16-bit groups of a 16-byte address, most significant byte first. -/
def groupsOf (ip : List Byte) : List Nat :=
  (List.range 8).map (fun i => 256 * (ip.getD (2 * i) 0).val + (ip.getD (2 * i + 1) 0).val)

/-- A group in lower-case hexadecimal without leading zeros. -/
def hexText (x : Nat) : GoString := str (String.mk (Nat.toDigits 16 x))

/-- The number of consecutive zero groups of `g` from position `i` on. -/
def zerosAt (g : List Nat) (i : Nat) : Nat :=
  ((g.drop i).takeWhile (fun x => x == 0)).length

/-- The run of zero groups that the standard text shortens: start and length of
the longest run of consecutive zero groups, the first one when several are as
long; none when no run has two groups. -/
def longestZeroRun (g : List Nat) : Option (Nat × Nat) :=
  let runs := (List.range g.length).map (zerosAt g)
  let best := runs.foldl max 0
  if best < 2 then none else some (runs.indexOf best, best)

/-- The standard text of an IPv6 address (RFC 5952): the groups in lower-case
hexadecimal without leading zeros, separated by `:`, with the longest run of two
or more zero groups, the first of them when several are as long, written `::`. -/
def rfc5952 (ip : List Byte) : GoString :=
  let g := groupsOf ip
  match longestZeroRun g with
  | none => List.intercalate [0x3a] (g.map hexText)
  | some (i, l) =>
    List.intercalate [0x3a] ((g.take i).map hexText) ++ [0x3a, 0x3a] ++
      List.intercalate [0x3a] ((g.drop (i + l)).map hexText)

/-- The standard text of an IPv6 address, an IPv4-mapped address being written
`::ffff:a.b.c.d`. -/
def ipv6Text (ip : List Byte) : GoString :=
  if ip.take 12 = v4InV6Prefix then
    str "::ffff:" ++ dottedDecimal (ip.getD 12 0) (ip.getD 13 0) (ip.getD 14 0) (ip.getD 15 0)
  else rfc5952 ip

/-! ### Devices of the proofs -/

/-- The inner loop of `Addr.appendTo6` on a list of groups. -/
def zerosFromG (g : List Nat) : Nat → Nat → Nat
  | 0, j => j
  | fuel + 1, j => if j < 8 ∧ g.getD j 0 = 0 then zerosFromG g fuel (j + 1) else j

/-- The first loop of `Addr.appendTo6` on a list of groups. -/
def zeroRunG (g : List Nat) : Nat × Nat :=
  (List.range 8).foldl
    (fun (z : Nat × Nat) i =>
      let j := zerosFromG g 8 i
      let l := j - i
      if l ≥ 2 ∧ l > z.2 - z.1 then (i, j) else z)
    (255, 255)

/-- Whether a group is zero, as `0` or `1`: all that the search for the zero run looks
at. -/
def zeroGroup (x : Nat) : Nat := if x = 0 then 0 else 1

/-- On the groups `z`, the search of `Addr.appendTo6` finds the run that
`longestZeroRun` describes, and that run is made of zero groups inside the
address. -/
def runAgrees (z : List Nat) : Bool :=
  match longestZeroRun z with
  | none => zeroRunG z == (255, 255)
  | some (i, l) =>
    zeroRunG z == (i, i + l) && decide (2 ≤ l) && decide (i + l ≤ 8) &&
      ((z.drop i).take l).all (fun x => x == 0)

/-- Each field preceded by a colon. -/
def colonsBefore (fs : List GoString) : GoString := fs.flatMap (fun f => 0x3a :: f)

/-- The fields of the text of `ip`. -/
def fieldsOf (ip : List Byte) : List GoString := (groupsOf ip).map hexText

/-- The hex digit of a nibble, as `appendHex` looks it up. -/
def hexDigit (k : Nat) : Byte := digits.getD k 0

/-- The value of a decimal or hexadecimal digit character. -/
def digitValue (c : Byte) : Nat :=
  if c.val ≥ 97 then c.val - 87 else c.val - 48

/-- The number a text of digits in base `b` stands for. -/
def parseDigits (b : Nat) (t : List Byte) : Nat :=
  t.foldl (fun acc c => b * acc + digitValue c) 0

/-- The fields of an IPv6 text: the `::` is replaced by as many `0` fields as are
missing to eight. -/
def expandFields (L : List GoString) : List GoString :=
  if [] ∈ L then
    let pre := L.takeWhile (fun f => !f.isEmpty)
    let post := (L.dropWhile (fun f => !f.isEmpty)).filter (fun f => !f.isEmpty)
    pre ++ List.replicate (8 - pre.length - post.length) (hexText 0) ++ post
  else L

/-- A list of fields without colon, and not empty. -/
def CleanFields (fs : List GoString) : Prop := ∀ f ∈ fs, f ≠ [] ∧ (0x3a : Byte) ∉ f

/-- A step of a parser followed by the rest of it: an error ends the parser. -/
def andThen {α β : Type} (x : Except Error α × Reader)
    (k : α → Reader → Except Error β × Reader) : Except Error β × Reader :=
  match x with
  | (.error err, reader) => (.error err, reader)
  | (.ok a, reader) => k a reader

/-- The part of `handleRequest` that follows the read of the header, as a function
of the three header bytes it looks at. -/
def afterHeader (ver cmd atyp : Byte) (reader : Reader) :
    Except Error (GoString × Nat) × Reader :=
  if ver ≠ socks5Version then
    (.error (Error.New "invalid request version"), reader)
  else if cmd ≠ connectCmd then
    (.error (Error.New "unsupported command"), reader)
  else
    andThen
      (if atyp = ipv4Addr then
        andThen (ReadFull IPv4len reader) (fun addr reader => (.ok (IP.String addr), reader))
      else if atyp = domainAddr then
        andThen reader.ReadByte (fun domainLen reader =>
          andThen (ReadFull domainLen.val reader) (fun domain reader => (.ok domain, reader)))
      else if atyp = ipv6Addr then
        andThen (ReadFull IPv6len reader) (fun addr reader => (.ok (IP.String addr), reader))
      else
        (.error (Error.New "unsupported address type"), reader))
      (fun host reader =>
        andThen (ReadFull 2 reader) (fun portBytes reader =>
          (.ok (host, Uint16 portBytes), reader)))

/-- Two results of a parser that agree on what is returned and on what is left of
the stream. -/
def SameResult {α : Type} (x y : Except Error α × Reader) : Prop :=
  x.1 = y.1 ∧ x.2.stream = y.2.stream

/-- The second result succeeds whenever the first does, with the same value, and
leaves `more` behind what the first leaves. -/
def Extends {α : Type} (more : List Byte) (x y : Except Error α × Reader) : Prop :=
  ∀ a, x.1 = .ok a → y.1 = .ok a ∧ y.2.stream = x.2.stream ++ more

/-! ## Reading and writing -/

theorem Writer.Write_of_hasRoom (w : Writer) (p : List Byte) (h : w.hasRoom p.length = true) :
    w.Write p = ((p.length, none), ⟨w.written ++ p, w.room.map (fun k => k - p.length)⟩) := by
  unfold Writer.hasRoom at h
  unfold Writer.Write
  cases hr : w.room with
  | none => simp
  | some k =>
    rw [hr] at h
    have hk : p.length ≤ k := by simpa using h
    simp [hk]

/-- A write never takes back what was written, and adds a prefix of its argument. -/
theorem Writer.Write_written (w : Writer) (p : List Byte) :
    ∃ k, (w.Write p).2.written = w.written ++ p.take k := by
  unfold Writer.Write
  cases hr : w.room with
  | none => exact ⟨p.length, by simp⟩
  | some k =>
    by_cases hk : p.length ≤ k
    · exact ⟨p.length, by simp [hk]⟩
    · exact ⟨k, by simp [hk]⟩

theorem readAtLeast_ok (conn : List Segment) :
    ∀ (got : List Byte) (need : Nat) (buf xs rest : List Byte),
      buf ++ flatten conn = xs ++ rest → xs.length = need →
      ∃ r, readAtLeast conn got need buf = (.ok (got ++ xs), r) ∧ r.stream = rest := by
  induction conn with
  | nil =>
    intro got need buf xs rest h hn
    have hb : buf = xs ++ rest := by simpa [flatten] using h
    have hle : need ≤ buf.length := by rw [hb, List.length_append]; omega
    refine ⟨⟨buf.drop need, []⟩, ?_, ?_⟩
    · simp [readAtLeast, hle, hb, ← hn]
    · simp [Reader.stream, flatten, hb, ← hn]
  | cons s ss ih =>
    intro got need buf xs rest h hn
    by_cases hle : need ≤ buf.length
    · have hx : xs = buf.take need := by
        have := congrArg (List.take need) h
        rw [List.take_append_of_le_length hle, ← hn, List.take_left] at this
        rw [← hn]; exact this.symm
      have hr : rest = buf.drop need ++ flatten (s :: ss) := by
        have := congrArg (List.drop need) h
        rw [List.drop_append_of_le_length hle, ← hn, List.drop_left] at this
        rw [← hn]; exact this.symm
      refine ⟨⟨buf.drop need, s :: ss⟩, ?_, ?_⟩
      · simp [readAtLeast, hle, hx]
      · simp [Reader.stream, hr]
    · have hlt : buf.length < xs.length := by omega
      obtain ⟨xs1, hxs⟩ : ∃ xs1, xs = buf ++ xs1 := by
        refine ⟨xs.drop buf.length, ?_⟩
        have := congrArg (List.take buf.length) h
        rw [List.take_left, List.take_append_of_le_length (Nat.le_of_lt hlt)] at this
        conv_lhs => rw [← List.take_append_drop buf.length xs]
        rw [← this]
      subst hxs
      have h1 : s.toList ++ flatten ss = xs1 ++ rest := by
        have : buf ++ (s.toList ++ flatten ss) = buf ++ (xs1 ++ rest) := by
          simpa [flatten, List.append_assoc] using h
        exact List.append_cancel_left this
      have hn1 : xs1.length = need - buf.length := by
        rw [List.length_append] at hn; omega
      obtain ⟨r, hr, hs⟩ := ih (got ++ buf) (need - buf.length) s.toList xs1 rest h1 hn1
      refine ⟨r, ?_, hs⟩
      simp only [readAtLeast, if_neg hle, hr, List.append_assoc]

theorem readAtLeast_short (conn : List Segment) :
    ∀ (got : List Byte) (need : Nat) (buf : List Byte),
      (buf ++ flatten conn).length < need →
      readAtLeast conn got need buf =
        (.error (if got ++ (buf ++ flatten conn) = [] then Error.EOF
          else Error.ErrUnexpectedEOF), ⟨[], []⟩) := by
  induction conn with
  | nil =>
    intro got need buf h
    have hle : ¬ need ≤ buf.length := by simp [flatten] at h; omega
    simp [readAtLeast, hle, flatten]
  | cons s ss ih =>
    intro got need buf h
    have hlen : (buf ++ flatten (s :: ss)).length
        = buf.length + (s.toList ++ flatten ss).length := by
      simp [flatten]
    have hle : ¬ need ≤ buf.length := by omega
    have h1 : (s.toList ++ flatten ss).length < need - buf.length := by omega
    simp only [readAtLeast, if_neg hle, ih (got ++ buf) (need - buf.length) s.toList h1]
    simp [flatten, List.append_assoc]

/-- A `ReadFull` of `xs.length` bytes on a stream that starts with `xs` returns
`xs` and leaves the rest of the stream. -/
theorem ReadFull_ok (r : Reader) (xs rest : List Byte) (h : r.stream = xs ++ rest) :
    ∃ r1, ReadFull xs.length r = (.ok xs, r1) ∧ r1.stream = rest := by
  obtain ⟨r1, h1, h2⟩ := readAtLeast_ok r.conn [] xs.length r.buf xs rest h rfl
  exact ⟨r1, by simpa [ReadFull] using h1, h2⟩

/-- A `ReadFull` of more bytes than the stream has fails: `io.EOF` on an empty
stream, `io.ErrUnexpectedEOF` otherwise. -/
theorem ReadFull_short (r : Reader) (n : Nat) (h : r.stream.length < n) :
    ReadFull n r =
      (.error (if r.stream = [] then Error.EOF else Error.ErrUnexpectedEOF), ⟨[], []⟩) := by
  have := readAtLeast_short r.conn [] n r.buf h
  simpa [ReadFull, Reader.stream] using this

/-- A `ReadByte` on a non-empty stream returns its first byte. -/
theorem ReadByte_ok (r : Reader) (b : Byte) (rest : List Byte) (h : r.stream = b :: rest) :
    ∃ r1, r.ReadByte = (.ok b, r1) ∧ r1.stream = rest := by
  obtain ⟨buf, conn⟩ := r
  cases buf with
  | cons c buf =>
    simp only [Reader.stream, List.cons_append, List.cons.injEq] at h
    exact ⟨⟨buf, conn⟩, by simp [Reader.ReadByte, h.1], h.2⟩
  | nil =>
    cases conn with
    | nil => simp [Reader.stream, flatten] at h
    | cons s ss =>
      simp only [Reader.stream, flatten, Segment.toList, List.nil_append, List.cons_append,
        List.cons.injEq] at h
      exact ⟨⟨s.tail, ss⟩, by simp [Reader.ReadByte, h.1], h.2⟩


/-! ## `handleHandshake`: claims C1 and C2 -/

theorem acceptableLoop_iff (methods : List Byte) :
    acceptableLoop methods = true ↔ (0 : Byte) ∈ methods := by
  induction methods with
  | nil => simp [acceptableLoop]
  | cons m ms ih =>
    by_cases hm : m = 0
    · simp [acceptableLoop, authNoAuthenticationRequired, hm]
    · have hm1 : ¬ (0 : Byte) = m := fun h => hm h.symm
      simp [acceptableLoop, authNoAuthenticationRequired, hm, hm1, ih]

/-- What `handleHandshake` does on a stream that starts with a complete version-5
handshake: the two header bytes and the `N` methods are consumed, and the answer
depends on the loop over the methods only. -/
theorem handleHandshake_complete (reader : Reader) (writer : Writer) (N : Byte)
    (methods rest : List Byte) (hlen : methods.length = N.val)
    (hs : reader.stream = [0x05, N] ++ methods ++ rest) :
    ∃ r1, r1.stream = rest ∧
      handleHandshake reader writer =
        if acceptableLoop methods = true then
          ((writer.Write [0x05, 0x00]).1.2, r1, (writer.Write [0x05, 0x00]).2)
        else
          (some (Error.New "no acceptable authentication methods"), r1,
            (writer.Write [0x05, 0xff]).2) := by
  have hs1 : reader.stream = [0x05, N] ++ (methods ++ rest) := by simpa using hs
  obtain ⟨r0, h0, hs0⟩ := ReadFull_ok reader [0x05, N] (methods ++ rest) hs1
  obtain ⟨r1, h1, hs2⟩ := ReadFull_ok r0 methods rest hs0
  refine ⟨r1, hs2, ?_⟩
  have h0a : ReadFull 2 reader = (.ok [0x05, N], r0) := h0
  rw [hlen] at h1
  unfold handleHandshake
  rw [h0a]
  simp only [List.getD_cons_zero, List.getD_cons_succ, socks5Version, ne_eq,
    not_true_eq_false, if_false]
  rw [h1]
  by_cases hacc : acceptableLoop methods = true
  · simp [hacc, socks5Version, authNoAuthenticationRequired]
  · simp [hacc, socks5Version, authNoAcceptableMethods]

/-- C1: on every client stream that begins `[0x05, N, m_1..m_N]` with `0x00` among
the `N` methods, `handleHandshake` makes exactly one write, of the two bytes
`[0x05, 0x00]`, returns the error of that write (none when the write succeeds),
and has consumed exactly the handshake. -/
theorem handleHandshake_accepts_no_auth (reader : Reader) (writer : Writer) (N : Byte)
    (methods rest : List Byte) (hlen : methods.length = N.val)
    (hs : reader.stream = [0x05, N] ++ methods ++ rest) (hm : (0x00 : Byte) ∈ methods) :
    (handleHandshake reader writer).1 = (writer.Write [0x05, 0x00]).1.2 ∧
    (handleHandshake reader writer).2.2 = (writer.Write [0x05, 0x00]).2 ∧
    (handleHandshake reader writer).2.1.stream = rest ∧
    (writer.hasRoom 2 = true →
      (handleHandshake reader writer).1 = none ∧
      (handleHandshake reader writer).2.2.written = writer.written ++ [0x05, 0x00]) := by
  obtain ⟨r1, hr1, h⟩ := handleHandshake_complete reader writer N methods rest hlen hs
  rw [if_pos ((acceptableLoop_iff methods).2 hm)] at h
  rw [h]
  refine ⟨rfl, rfl, hr1, fun hroom => ?_⟩
  have hw := Writer.Write_of_hasRoom writer [0x05, 0x00] hroom
  simp [hw]

theorem handleHandshake_accepts_no_auth_witness :
    (handleHandshake ⟨[0x05], [⟨0x03, [0x02, 0x01]⟩, ⟨0x00, [0x09]⟩]⟩ ⟨[0x07], some 5⟩).1
      = (Writer.Write ⟨[0x07], some 5⟩ [0x05, 0x00]).1.2 ∧
    (handleHandshake ⟨[0x05], [⟨0x03, [0x02, 0x01]⟩, ⟨0x00, [0x09]⟩]⟩ ⟨[0x07], some 5⟩).2.2
      = (Writer.Write ⟨[0x07], some 5⟩ [0x05, 0x00]).2 ∧
    (handleHandshake ⟨[0x05], [⟨0x03, [0x02, 0x01]⟩, ⟨0x00, [0x09]⟩]⟩
      ⟨[0x07], some 5⟩).2.1.stream = [0x09] ∧
    (Writer.hasRoom ⟨[0x07], some 5⟩ 2 = true →
      (handleHandshake ⟨[0x05], [⟨0x03, [0x02, 0x01]⟩, ⟨0x00, [0x09]⟩]⟩ ⟨[0x07], some 5⟩).1
        = none ∧
      (handleHandshake ⟨[0x05], [⟨0x03, [0x02, 0x01]⟩, ⟨0x00, [0x09]⟩]⟩
        ⟨[0x07], some 5⟩).2.2.written = [0x07] ++ [0x05, 0x00]) :=
  handleHandshake_accepts_no_auth ⟨[0x05], [⟨0x03, [0x02, 0x01]⟩, ⟨0x00, [0x09]⟩]⟩
    ⟨[0x07], some 5⟩ 0x03 [0x02, 0x01, 0x00] [0x09] (by decide) (by decide) (by decide)

/-- C2: on every client stream that begins `[0x05, N, m_1..m_N]` with no `0x00`
among the `N` methods (`N = 0` included), `handleHandshake` makes exactly one
write, of the two bytes `[0x05, 0xFF]`, and then returns the error
"no acceptable authentication methods": it never succeeds, and what it adds to
the writer is never `[0x05, 0x00]`. -/
theorem handleHandshake_rejects_without_no_auth (reader : Reader) (writer : Writer) (N : Byte)
    (methods rest : List Byte) (hlen : methods.length = N.val)
    (hs : reader.stream = [0x05, N] ++ methods ++ rest) (hm : (0x00 : Byte) ∉ methods) :
    (handleHandshake reader writer).1
      = some (Error.New "no acceptable authentication methods") ∧
    (handleHandshake reader writer).2.2 = (writer.Write [0x05, 0xff]).2 ∧
    (handleHandshake reader writer).2.1.stream = rest ∧
    (handleHandshake reader writer).2.2.written ≠ writer.written ++ [0x05, 0x00] ∧
    (writer.hasRoom 2 = true →
      (handleHandshake reader writer).2.2.written = writer.written ++ [0x05, 0xff]) := by
  obtain ⟨r1, hr1, h⟩ := handleHandshake_complete reader writer N methods rest hlen hs
  have hacc : ¬ acceptableLoop methods = true := fun hc => hm ((acceptableLoop_iff methods).1 hc)
  rw [if_neg hacc] at h
  rw [h]
  refine ⟨rfl, rfl, hr1, ?_, fun hroom => ?_⟩
  · obtain ⟨k, hk⟩ := Writer.Write_written writer [0x05, 0xff]
    show (writer.Write [0x05, 0xff]).2.written ≠ _
    rw [hk]
    intro hc
    have hc1 := List.append_cancel_left hc
    match k, hc1 with
    | 0, hc1 => simp at hc1
    | 1, hc1 => simp at hc1
    | k + 2, hc1 => simp at hc1
  · have hw := Writer.Write_of_hasRoom writer [0x05, 0xff] hroom
    simp [hw]

theorem handleHandshake_rejects_without_no_auth_witness :
    (handleHandshake ⟨[], [⟨0x05, [0x02, 0x01]⟩, ⟨0x02, [0x09]⟩]⟩ ⟨[], none⟩).1
      = some (Error.New "no acceptable authentication methods") ∧
    (handleHandshake ⟨[], [⟨0x05, [0x02, 0x01]⟩, ⟨0x02, [0x09]⟩]⟩ ⟨[], none⟩).2.2
      = (Writer.Write ⟨[], none⟩ [0x05, 0xff]).2 ∧
    (handleHandshake ⟨[], [⟨0x05, [0x02, 0x01]⟩, ⟨0x02, [0x09]⟩]⟩ ⟨[], none⟩).2.1.stream
      = [0x09] ∧
    (handleHandshake ⟨[], [⟨0x05, [0x02, 0x01]⟩, ⟨0x02, [0x09]⟩]⟩ ⟨[], none⟩).2.2.written
      ≠ [] ++ [0x05, 0x00] ∧
    (Writer.hasRoom ⟨[], none⟩ 2 = true →
      (handleHandshake ⟨[], [⟨0x05, [0x02, 0x01]⟩, ⟨0x02, [0x09]⟩]⟩ ⟨[], none⟩).2.2.written
        = [] ++ [0x05, 0xff]) :=
  handleHandshake_rejects_without_no_auth ⟨[], [⟨0x05, [0x02, 0x01]⟩, ⟨0x02, [0x09]⟩]⟩
    ⟨[], none⟩ 0x02 [0x01, 0x02] [0x09] (by decide) (by decide) (by decide)


/-! ## Ports and IPv4 text -/

theorem Uint16_eq (hi lo : Byte) : Uint16 [hi, lo] = 256 * hi.val + lo.val := by
  have h1 := hi.isLt
  have h2 : lo.val < 2 ^ 8 := lo.isLt
  simp only [Uint16, List.getD_cons_zero, List.getD_cons_succ]
  rw [Nat.shiftLeft_eq, Nat.or_comm, Nat.mul_comm, ← Nat.mul_add_lt_is_or h2]
  omega

theorem PutUint16_eq (v : Nat) :
    PutUint16 v = [Fin.ofNat (v / 256), Fin.ofNat (v % 256)] := by
  simp only [PutUint16, Nat.shiftRight_eq_div_pow, List.cons.injEq, and_true, true_and]
  apply Fin.ext
  simp [Fin.ofNat]

theorem toUint16_of_port (port : Int) (h0 : 0 ≤ port) (h1 : port ≤ 65535) :
    toUint16 port = port.toNat := by
  unfold toUint16
  rw [Int.emod_eq_of_lt h0 (by omega)]

theorem length_eq_two {α : Type} (l : List α) (h : l.length = 2) : ∃ a b, l = [a, b] := by
  match l, h with
  | [a, b], _ => exact ⟨a, b, rfl⟩

theorem length_eq_four {α : Type} (l : List α) (h : l.length = 4) :
    ∃ a b c d, l = [a, b, c, d] := by
  match l, h with
  | [a, b, c, d], _ => exact ⟨a, b, c, d, rfl⟩

theorem length_eq_sixteen {α : Type} (l : List α) (h : l.length = 16) :
    ∃ a0 a1 a2 a3 a4 a5 a6 a7 a8 a9 a10 a11 a12 a13 a14 a15,
      l = [a0, a1, a2, a3, a4, a5, a6, a7, a8, a9, a10, a11, a12, a13, a14, a15] := by
  match l, h with
  | [a0, a1, a2, a3, a4, a5, a6, a7, a8, a9, a10, a11, a12, a13, a14, a15], _ =>
    exact ⟨a0, a1, a2, a3, a4, a5, a6, a7, a8, a9, a10, a11, a12, a13, a14, a15, rfl⟩

theorem Uint16_inj (p p' : List Byte) (h : p.length = 2) (h' : p'.length = 2)
    (he : Uint16 p = Uint16 p') : p = p' := by
  obtain ⟨a, b, rfl⟩ := length_eq_two p h
  obtain ⟨a', b', rfl⟩ := length_eq_two p' h'
  rw [Uint16_eq, Uint16_eq] at he
  have := a.isLt; have := b.isLt; have := a'.isLt; have := b'.isLt
  have e1 : a = a' := Fin.ext (by omega)
  have e2 : b = b' := Fin.ext (by omega)
  subst e1 e2
  rfl

theorem To4_of_length_four (ip : List Byte) (h : ip.length = 4) : To4 ip = some ip := by
  simp [To4, IPv4len, h]

theorem To4_of_mapped (ip : List Byte) (h : ip.length = 16) (hp : ip.take 12 = v4InV6Prefix) :
    To4 ip = some (ip.drop 12) := by
  obtain ⟨a0, a1, a2, a3, a4, a5, a6, a7, a8, a9, a10, a11, a12, a13, a14, a15, rfl⟩ :=
    length_eq_sixteen ip h
  simp only [List.take, v4InV6Prefix, List.cons.injEq, and_true] at hp
  obtain ⟨h0, h1, h2, h3, h4, h5, h6, h7, h8, h9, h10, h11⟩ := hp
  subst h0 h1 h2 h3 h4 h5 h6 h7 h8 h9 h10 h11
  simp [To4, IPv4len, IPv6len, isZeros]

theorem To4_of_not_mapped (ip : List Byte) (h : ip.length = 16)
    (hp : ip.take 12 ≠ v4InV6Prefix) : To4 ip = none := by
  obtain ⟨a0, a1, a2, a3, a4, a5, a6, a7, a8, a9, a10, a11, a12, a13, a14, a15, rfl⟩ :=
    length_eq_sixteen ip h
  simp only [To4, List.length_cons, List.length_nil, IPv4len, IPv6len]
  rw [if_neg (by decide), if_neg]
  intro hc
  apply hp
  simp only [isZeros, List.take, List.all_cons, List.all_nil, Bool.and_true, Bool.and_eq_true,
    decide_eq_true_eq, List.getD_cons_zero, List.getD_cons_succ, true_and] at hc
  obtain ⟨⟨h0, h1, h2, h3, h4, h5, h6, h7, h8, h9⟩, h10, h11⟩ := hc
  subst h0 h1 h2 h3 h4 h5 h6 h7 h8 h9 h10 h11
  rfl

theorem appendDecimal_append (ret : List Byte) (x : Byte) :
    appendDecimal ret x = ret ++ appendDecimal [] x := by
  unfold appendDecimal
  by_cases h1 : x.val ≥ 100 <;> by_cases h2 : x.val ≥ 10 <;> simp [h1, h2]

set_option maxRecDepth 100000 in
theorem appendDecimal_nil : ∀ x : Byte, appendDecimal [] x = str (Nat.repr x.val) := by
  decide

theorem IP_String_four (a b c d : Byte) : IP.String [a, b, c, d] = dottedDecimal a b c d := by
  have h4 : To4 [a, b, c, d] = some [a, b, c, d] := by simp [To4, IPv4len]
  simp only [IP.String, List.length_cons, List.length_nil, IPv4len, IPv6len, h4, appendTo4,
    List.getD_cons_zero, List.getD_cons_succ, dottedDecimal]
  rw [appendDecimal_append _ d, appendDecimal_append _ c, appendDecimal_append _ b,
    appendDecimal_nil a, appendDecimal_nil b, appendDecimal_nil c, appendDecimal_nil d]
  simp

theorem str_dot : str "." = [0x2e] := by decide

theorem str_colon : str ":" = [0x3a] := by decide
theorem str_colon2 : str "::" = [0x3a, 0x3a] := by decide

set_option maxRecDepth 100000 in
theorem decimal_facts : ∀ x : Byte,
    parseDigits 10 (str (Nat.repr x.val)) = x.val ∧
      (str (Nat.repr x.val)).all (fun c => decide (c ≠ 0x2e) && decide (c ≠ 0x3a)) = true := by
  decide

theorem decimal_inj (x y : Byte) (h : str (Nat.repr x.val) = str (Nat.repr y.val)) : x = y := by
  apply Fin.ext
  rw [← (decimal_facts x).1, ← (decimal_facts y).1, h]

theorem decimal_no_dot (x : Byte) : ∀ c ∈ str (Nat.repr x.val), ¬ ((c == (0x2e : Byte)) = true) := by
  intro c hc
  have := (decimal_facts x).2
  rw [List.all_eq_true] at this
  have := this c hc
  simp only [Bool.and_eq_true, decide_eq_true_eq] at this
  simpa using this.1

theorem decimal_no_colon (x : Byte) : ∀ c ∈ str (Nat.repr x.val), c ≠ (0x3a : Byte) := by
  intro c hc
  have := (decimal_facts x).2
  rw [List.all_eq_true] at this
  have := this c hc
  simp only [Bool.and_eq_true, decide_eq_true_eq] at this
  exact this.2

theorem dottedDecimal_split (a b c d : Byte) :
    (dottedDecimal a b c d).splitOn 0x2e =
      [str (Nat.repr a.val), str (Nat.repr b.val), str (Nat.repr c.val), str (Nat.repr d.val)] := by
  have e : dottedDecimal a b c d = str (Nat.repr a.val) ++ 0x2e :: (str (Nat.repr b.val) ++
      0x2e :: (str (Nat.repr c.val) ++ 0x2e :: str (Nat.repr d.val))) := by
    simp [dottedDecimal, str_dot]
  rw [e, List.splitOn, List.splitOnP_first _ _ (decimal_no_dot a) _ (by simp),
    List.splitOnP_first _ _ (decimal_no_dot b) _ (by simp),
    List.splitOnP_first _ _ (decimal_no_dot c) _ (by simp),
    List.splitOnP_eq_single _ _ (decimal_no_dot d)]

theorem dottedDecimal_inj (a b c d a' b' c' d' : Byte)
    (h : dottedDecimal a b c d = dottedDecimal a' b' c' d') :
    a = a' ∧ b = b' ∧ c = c' ∧ d = d' := by
  have hs := congrArg (List.splitOn (0x2e : Byte)) h
  rw [dottedDecimal_split, dottedDecimal_split] at hs
  simp only [List.cons.injEq, and_true] at hs
  exact ⟨decimal_inj _ _ hs.1, decimal_inj _ _ hs.2.1, decimal_inj _ _ hs.2.2.1,
    decimal_inj _ _ hs.2.2.2⟩

theorem dottedDecimal_no_colon (a b c d : Byte) : (0x3a : Byte) ∉ dottedDecimal a b c d := by
  intro h
  simp only [dottedDecimal, str_dot, List.mem_append, List.mem_singleton] at h
  rcases h with ((((((h | h) | h) | h) | h) | h) | h)
  · exact decimal_no_colon a _ h rfl
  · exact absurd h (by decide)
  · exact decimal_no_colon b _ h rfl
  · exact absurd h (by decide)
  · exact decimal_no_colon c _ h rfl
  · exact absurd h (by decide)
  · exact decimal_no_colon d _ h rfl

theorem dottedDecimal_ne_nil (a b c d : Byte) : dottedDecimal a b c d ≠ [] := by
  simp [dottedDecimal, str_dot]

theorem IP_String_inj_four (ip ip' : List Byte) (h : ip.length = 4) (h' : ip'.length = 4)
    (he : IP.String ip = IP.String ip') : ip = ip' := by
  obtain ⟨a, b, c, d, rfl⟩ := length_eq_four ip h
  obtain ⟨a', b', c', d', rfl⟩ := length_eq_four ip' h'
  rw [IP_String_four, IP_String_four] at he
  obtain ⟨e1, e2, e3, e4⟩ := dottedDecimal_inj _ _ _ _ _ _ _ _ he
  subst e1 e2 e3 e4
  rfl


/-! ## Hexadecimal fields -/

theorem digitChar_eq : ∀ k : Fin 16, (Fin.ofNat (Nat.digitChar k.val).toNat : Byte) = hexDigit k.val := by
  decide

theorem digitChar_lt (k : Nat) (h : k < 16) : (Fin.ofNat (Nat.digitChar k).toNat : Byte) = hexDigit k :=
  digitChar_eq ⟨k, h⟩

theorem appendHex_eq (ret : List Byte) (x : Nat) :
    appendHex ret x = ret ++
      ((if x ≥ 0x1000 then [hexDigit (x / 4096)] else []) ++
       (if x ≥ 0x100 then [hexDigit (x / 256 % 16)] else []) ++
       (if x ≥ 0x10 then [hexDigit (x / 16 % 16)] else []) ++ [hexDigit (x % 16)]) := by
  have e1 : x >>> 12 = x / 4096 := by rw [Nat.shiftRight_eq_div_pow]
  have e2 : x >>> 8 &&& 0xf = x / 256 % 16 := by
    rw [Nat.shiftRight_eq_div_pow]; exact Nat.and_pow_two_sub_one_eq_mod _ 4
  have e3 : x >>> 4 &&& 0xf = x / 16 % 16 := by
    rw [Nat.shiftRight_eq_div_pow]; exact Nat.and_pow_two_sub_one_eq_mod _ 4
  have e4 : x &&& 0xf = x % 16 := Nat.and_pow_two_sub_one_eq_mod _ 4
  unfold appendHex hexDigit
  rw [e1, e2, e3, e4]
  by_cases h1 : x ≥ 0x1000 <;> by_cases h2 : x ≥ 0x100 <;> by_cases h3 : x ≥ 0x10 <;>
    simp [h1, h2, h3]

theorem toDigits_step (x : Nat) (ds : List Char) (fuel : Nat) :
    Nat.toDigitsCore 16 (fuel + 1) x ds =
      if x / 16 = 0 then Nat.digitChar (x % 16) :: ds
      else Nat.toDigitsCore 16 fuel (x / 16) (Nat.digitChar (x % 16) :: ds) := by
  simp [Nat.toDigitsCore]

theorem str_mk (cs : List Char) : str (String.mk cs) = cs.map (fun c => Fin.ofNat c.toNat) := rfl

theorem hexText_eq (x : Nat) (hx : x < 65536) :
    hexText x =
      ((if x ≥ 0x1000 then [hexDigit (x / 4096)] else []) ++
       (if x ≥ 0x100 then [hexDigit (x / 256 % 16)] else []) ++
       (if x ≥ 0x10 then [hexDigit (x / 16 % 16)] else []) ++ [hexDigit (x % 16)]) := by
  have d1 : x / 16 / 16 = x / 256 := by rw [Nat.div_div_eq_div_mul]
  have d2 : x / 256 / 16 = x / 4096 := by rw [Nat.div_div_eq_div_mul]
  have m0 := digitChar_lt (x % 16) (by omega)
  have m1 := digitChar_lt (x / 16 % 16) (by omega)
  have m2 := digitChar_lt (x / 256 % 16) (by omega)
  have m3 := digitChar_lt (x / 4096 % 16) (by omega)
  unfold hexText Nat.toDigits
  by_cases h3 : x ≥ 0x10
  · by_cases h2 : x ≥ 0x100
    · by_cases h1 : x ≥ 0x1000
      · rw [show x + 1 = (x - 3) + 1 + 1 + 1 + 1 by omega, toDigits_step, if_neg (by omega),
          toDigits_step, if_neg (by omega), d1, toDigits_step, if_neg (by omega), d2,
          toDigits_step, if_pos (by omega), str_mk]
        have e : x / 4096 % 16 = x / 4096 := Nat.mod_eq_of_lt (by omega)
        rw [e]
        rw [e] at m3
        simp [h1, h2, h3, m0, m1, m2, m3]
      · rw [show x + 1 = (x - 2) + 1 + 1 + 1 by omega, toDigits_step, if_neg (by omega),
          toDigits_step, if_neg (by omega), d1, toDigits_step, if_pos (by omega), str_mk]
        simp [h1, h2, h3, m0, m1, m2]
    · rw [show x + 1 = (x - 1) + 1 + 1 by omega, toDigits_step, if_neg (by omega),
        toDigits_step, if_pos (by omega), str_mk]
      have h1 : ¬ x ≥ 0x1000 := by omega
      simp [h1, h2, h3, m0, m1]
  · rw [toDigits_step, if_pos (by omega), str_mk]
    have h1 : ¬ x ≥ 0x1000 := by omega
    have h2 : ¬ x ≥ 0x100 := by omega
    simp [h1, h2, h3, m0]

theorem appendHex_hexText (ret : List Byte) (x : Nat) (hx : x < 65536) :
    appendHex ret x = ret ++ hexText x := by
  rw [appendHex_eq, hexText_eq x hx]

theorem hexDigit_facts : ∀ k : Fin 16,
    digitValue (hexDigit k.val) = k.val ∧ hexDigit k.val ≠ 0x3a := by
  decide

theorem hexText_parse (x : Nat) (hx : x < 65536) : parseDigits 16 (hexText x) = x := by
  have v0 := (hexDigit_facts ⟨x % 16, by omega⟩).1
  have v1 := (hexDigit_facts ⟨x / 16 % 16, by omega⟩).1
  have v2 := (hexDigit_facts ⟨x / 256 % 16, by omega⟩).1
  have v3 := (hexDigit_facts ⟨x / 4096, by omega⟩).1
  simp only at v0 v1 v2 v3
  rw [hexText_eq x hx]
  by_cases h1 : x ≥ 0x1000 <;> by_cases h2 : x ≥ 0x100 <;> by_cases h3 : x ≥ 0x10 <;>
    simp [h1, h2, h3, parseDigits, v0, v1, v2, v3] <;> omega

theorem hexText_inj (x y : Nat) (hx : x < 65536) (hy : y < 65536) (h : hexText x = hexText y) :
    x = y := by
  rw [← hexText_parse x hx, ← hexText_parse y hy, h]

theorem hexText_ne_nil (x : Nat) (hx : x < 65536) : hexText x ≠ [] := by
  rw [hexText_eq x hx]; simp

theorem hexText_no_colon (x : Nat) (hx : x < 65536) : (0x3a : Byte) ∉ hexText x := by
  have v0 := (hexDigit_facts ⟨x % 16, by omega⟩).2
  have v1 := (hexDigit_facts ⟨x / 16 % 16, by omega⟩).2
  have v2 := (hexDigit_facts ⟨x / 256 % 16, by omega⟩).2
  have v3 := (hexDigit_facts ⟨x / 4096, by omega⟩).2
  simp only at v0 v1 v2 v3
  rw [hexText_eq x hx]
  intro h
  simp only [List.mem_append, List.mem_singleton] at h
  rcases h with ((h | h) | h) | h
  · split at h
    · exact v3 (List.mem_singleton.1 h).symm
    · simp at h
  · split at h
    · exact v2 (List.mem_singleton.1 h).symm
    · simp at h
  · split at h
    · exact v1 (List.mem_singleton.1 h).symm
    · simp at h
  · exact v0 h.symm


/-! ## The search for the zero run -/

theorem runAgrees_all : ∀ n0 n1 n2 n3 n4 n5 n6 n7 : Fin 2,
    runAgrees [n0.val, n1.val, n2.val, n3.val, n4.val, n5.val, n6.val, n7.val] = true := by
  decide

theorem v6u16_eq (ip : List Byte) (i : Nat) :
    v6u16 ip i = 256 * (ip.getD (2 * i) 0).val + (ip.getD (2 * i + 1) 0).val := by
  have h2 : (ip.getD (2 * i + 1) 0).val < 2 ^ 8 := (ip.getD (2 * i + 1) 0).isLt
  unfold v6u16
  rw [Nat.shiftLeft_eq, Nat.mul_comm, ← Nat.mul_add_lt_is_or h2]

theorem v6u16_lt (ip : List Byte) (i : Nat) : v6u16 ip i < 65536 := by
  have h1 := (ip.getD (2 * i) 0).isLt
  have h2 := (ip.getD (2 * i + 1) 0).isLt
  rw [v6u16_eq]; omega

theorem groupsOf_eq (ip : List Byte) :
    groupsOf ip = [v6u16 ip 0, v6u16 ip 1, v6u16 ip 2, v6u16 ip 3, v6u16 ip 4, v6u16 ip 5,
      v6u16 ip 6, v6u16 ip 7] := by
  simp only [v6u16_eq]
  rfl

theorem groupsOf_getD (ip : List Byte) (j : Nat) (hj : j < 8) :
    (groupsOf ip).getD j 0 = v6u16 ip j := by
  rw [groupsOf_eq]
  interval_cases j <;> rfl

theorem groupsOf_length (ip : List Byte) : (groupsOf ip).length = 8 := by
  simp [groupsOf]

theorem groupsOf_lt (ip : List Byte) : ∀ x ∈ groupsOf ip, x < 65536 := by
  intro x hx
  rw [groupsOf_eq] at hx
  simp only [List.mem_cons, List.mem_singleton, List.not_mem_nil, or_false] at hx
  rcases hx with h | h | h | h | h | h | h | h <;> rw [h] <;> exact v6u16_lt ip _

theorem zerosFrom_eq (ip : List Byte) :
    ∀ fuel j, zerosFrom ip fuel j = zerosFromG (groupsOf ip) fuel j := by
  intro fuel
  induction fuel with
  | zero => intro j; rfl
  | succ fuel ih =>
    intro j
    by_cases hj : j < 8
    · simp only [zerosFrom, zerosFromG, groupsOf_getD ip j hj, ih]
    · simp [zerosFrom, zerosFromG, hj]

theorem zeroRun_eq (ip : List Byte) : zeroRun ip = zeroRunG (groupsOf ip) := by
  simp only [zeroRun, zeroRunG, zerosFrom_eq]

theorem zeroGroup_eq_zero (x : Nat) : zeroGroup x = 0 ↔ x = 0 := by
  unfold zeroGroup
  by_cases h : x = 0 <;> simp [h]

theorem zeroGroup_lt (x : Nat) : zeroGroup x < 2 := by
  unfold zeroGroup; split <;> omega

theorem zerosFromG_map (g : List Nat) :
    ∀ fuel j, zerosFromG (g.map zeroGroup) fuel j = zerosFromG g fuel j := by
  intro fuel
  induction fuel with
  | zero => intro j; rfl
  | succ fuel ih =>
    intro j
    have h : (g.map zeroGroup).getD j 0 = zeroGroup (g.getD j 0) := by
      have := List.getD_map (l := g) (n := j) (d := 0) zeroGroup
      simpa [zeroGroup] using this
    simp only [zerosFromG, h, zeroGroup_eq_zero, ih]

theorem zeroRunG_map (g : List Nat) : zeroRunG (g.map zeroGroup) = zeroRunG g := by
  simp only [zeroRunG, zerosFromG_map]

theorem zerosAt_map (g : List Nat) (i : Nat) : zerosAt (g.map zeroGroup) i = zerosAt g i := by
  have hf : ((fun x => x == 0) ∘ zeroGroup) = (fun x : Nat => x == 0) := by
    funext x
    by_cases h : x = 0 <;> simp [zeroGroup, h]
  simp only [zerosAt, ← List.map_drop, List.takeWhile_map, List.length_map, hf]

theorem longestZeroRun_map (g : List Nat) :
    longestZeroRun (g.map zeroGroup) = longestZeroRun g := by
  have h : zerosAt (g.map zeroGroup) = zerosAt g := funext (zerosAt_map g)
  simp only [longestZeroRun, List.length_map, h]

theorem runAgrees_groups (ip : List Byte) :
    runAgrees ((groupsOf ip).map zeroGroup) = true := by
  rw [groupsOf_eq]
  exact runAgrees_all ⟨_, zeroGroup_lt (v6u16 ip 0)⟩ ⟨_, zeroGroup_lt (v6u16 ip 1)⟩
    ⟨_, zeroGroup_lt (v6u16 ip 2)⟩ ⟨_, zeroGroup_lt (v6u16 ip 3)⟩ ⟨_, zeroGroup_lt (v6u16 ip 4)⟩
    ⟨_, zeroGroup_lt (v6u16 ip 5)⟩ ⟨_, zeroGroup_lt (v6u16 ip 6)⟩ ⟨_, zeroGroup_lt (v6u16 ip 7)⟩

/-- The search of `appendTo6` finds the run that the standard text shortens. -/
theorem zeroRun_facts (ip : List Byte) :
    (longestZeroRun (groupsOf ip) = none ∧ zeroRun ip = (255, 255)) ∨
    (∃ i l, longestZeroRun (groupsOf ip) = some (i, l) ∧ zeroRun ip = (i, i + l) ∧ 2 ≤ l ∧
      i + l ≤ 8 ∧ ∀ x ∈ ((groupsOf ip).drop i).take l, x = 0) := by
  have h := runAgrees_groups ip
  unfold runAgrees at h
  rw [longestZeroRun_map, zeroRunG_map, ← zeroRun_eq] at h
  cases hl : longestZeroRun (groupsOf ip) with
  | none =>
    rw [hl] at h
    exact Or.inl ⟨rfl, by simpa using h⟩
  | some il =>
    obtain ⟨i, l⟩ := il
    rw [hl] at h
    simp only [Bool.and_eq_true, beq_iff_eq, decide_eq_true_eq, List.all_eq_true] at h
    obtain ⟨⟨⟨h1, h2⟩, h3⟩, h4⟩ := h
    refine Or.inr ⟨i, l, rfl, h1, h2, h3, fun x hx => ?_⟩
    have hm : zeroGroup x ∈ (((groupsOf ip).map zeroGroup).drop i).take l := by
      rw [← List.map_drop, ← List.map_take]
      exact List.mem_map_of_mem _ hx
    exact (zeroGroup_eq_zero x).1 (h4 _ hm)


/-! ## `Addr.appendTo6` writes the standard text -/

theorem colonsBefore_nil : colonsBefore [] = [] := rfl

theorem colonsBefore_cons (f : GoString) (fs : List GoString) :
    colonsBefore (f :: fs) = 0x3a :: f ++ colonsBefore fs := by
  simp [colonsBefore]

theorem intercalate_cons (f : GoString) (fs : List GoString) :
    List.intercalate [0x3a] (f :: fs) = f ++ colonsBefore fs := by
  induction fs generalizing f with
  | nil => simp [List.intercalate, colonsBefore]
  | cons f1 fs ih =>
    have := ih f1
    simp only [List.intercalate, List.intersperse_cons_cons, List.flatten_cons] at this ⊢
    rw [this]
    simp [colonsBefore]

theorem fieldsOf_drop (ip : List Byte) (i : Nat) (hi : i < 8) :
    (fieldsOf ip).drop i = hexText (v6u16 ip i) :: (fieldsOf ip).drop (i + 1) := by
  simp only [fieldsOf, groupsOf_eq]
  interval_cases i <;> rfl

theorem fieldsOf_length (ip : List Byte) : (fieldsOf ip).length = 8 := by
  simp [fieldsOf, groupsOf]

theorem fieldsOf_drop_ge (ip : List Byte) (i : Nat) (hi : 8 ≤ i) : (fieldsOf ip).drop i = [] := by
  apply List.drop_eq_nil_of_le
  rw [fieldsOf_length]; exact hi

theorem appendGroups_tail (ip : List Byte) (zs ze : Nat) :
    ∀ fuel i ret, 0 < i → (zs < i ∨ 8 ≤ zs) → 8 ≤ i + fuel →
      appendGroups ip zs ze fuel i ret = ret ++ colonsBefore ((fieldsOf ip).drop i) := by
  intro fuel
  induction fuel with
  | zero =>
    intro i ret _ _ h8
    rw [fieldsOf_drop_ge ip i (by omega)]
    simp [appendGroups, colonsBefore_nil]
  | succ fuel ih =>
    intro i ret h0 hz h8
    by_cases hi : i < 8
    · have hne : i ≠ zs := by omega
      rw [appendGroups, if_pos hi, if_neg hne]
      simp only [if_pos h0, str_colon]
      rw [appendHex_hexText _ _ (v6u16_lt ip i), ih (i + 1) _ (by omega) (by omega) (by omega),
        fieldsOf_drop ip i hi, colonsBefore_cons]
      simp
    · rw [appendGroups, if_neg hi, fieldsOf_drop_ge ip i (by omega)]
      simp [colonsBefore_nil]

theorem intercalate_drop (ip : List Byte) (i : Nat) (hi : i < 8) :
    List.intercalate [0x3a] ((fieldsOf ip).drop i) =
      hexText (v6u16 ip i) ++ colonsBefore ((fieldsOf ip).drop (i + 1)) := by
  rw [fieldsOf_drop ip i hi, intercalate_cons]

/-- The loop at the start of the zero run. -/
theorem appendGroups_at_run (ip : List Byte) (zs ze : Nat) (hz : zs < ze) (hze : ze ≤ 8)
    (hzs : zs < 8) (fuel : Nat) (ret : List Byte) (h8 : 8 ≤ zs + (fuel + 1)) :
    appendGroups ip zs ze (fuel + 1) zs ret =
      ret ++ [0x3a, 0x3a] ++ List.intercalate [0x3a] ((fieldsOf ip).drop ze) := by
  rw [appendGroups, if_pos hzs, if_pos rfl]
  simp only [str_colon2]
  by_cases h : ze ≥ 8
  · rw [if_pos h, fieldsOf_drop_ge ip ze h]
    simp [List.intercalate]
  · rw [if_neg h, appendHex_hexText _ _ (v6u16_lt ip ze),
      appendGroups_tail ip zs ze fuel (ze + 1) _ (by omega) (by omega) (by omega),
      intercalate_drop ip ze (by omega)]
    simp

theorem appendGroups_mid (ip : List Byte) (zs ze : Nat) (hz : zs < ze) (hze : ze ≤ 8)
    (hzs : zs < 8) :
    ∀ fuel i ret, 0 < i → i ≤ zs → 8 ≤ i + fuel →
      appendGroups ip zs ze fuel i ret =
        ret ++ colonsBefore (((fieldsOf ip).drop i).take (zs - i)) ++ [0x3a, 0x3a] ++
          List.intercalate [0x3a] ((fieldsOf ip).drop ze) := by
  intro fuel
  induction fuel with
  | zero => intro i ret _ hi h8; omega
  | succ fuel ih =>
    intro i ret h0 hi h8
    by_cases he : i = zs
    · subst he
      rw [appendGroups_at_run ip i ze hz hze hzs fuel ret h8]
      simp [colonsBefore_nil]
    · have hi8 : i < 8 := by omega
      rw [appendGroups, if_pos hi8, if_neg he]
      simp only [if_pos h0, str_colon]
      rw [appendHex_hexText _ _ (v6u16_lt ip i), ih (i + 1) _ (by omega) (by omega) (by omega),
        fieldsOf_drop ip i hi8, show zs - i = (zs - (i + 1)) + 1 by omega, List.take_succ_cons,
        colonsBefore_cons]
      simp

/-- The text `appendTo6` builds is the standard text of the address. -/
theorem appendTo6_eq (ip : List Byte) : appendTo6 [] ip = rfc5952 ip := by
  have hf : (groupsOf ip).map hexText = fieldsOf ip := rfl
  rcases zeroRun_facts ip with ⟨hl, hz⟩ | ⟨i, l, hl, hz, h2, h8, _⟩
  · simp only [appendTo6, rfc5952, hl, hz, hf]
    rw [appendGroups, if_pos (by omega), if_neg (by omega)]
    simp only [gt_iff_lt, lt_self_iff_false, if_false]
    rw [appendHex_hexText _ _ (v6u16_lt ip 0),
      appendGroups_tail ip 255 255 7 1 _ (by omega) (by omega) (by omega)]
    have := intercalate_drop ip 0 (by omega)
    simpa using this.symm
  · simp only [appendTo6, rfc5952, hl, hz, List.map_take, List.map_drop, hf]
    by_cases hi : i = 0
    · subst hi
      rw [appendGroups_at_run ip 0 (0 + l) (by omega) h8 (by omega) 7 [] (by omega)]
      simp [List.intercalate]
    · rw [appendGroups, if_pos (by omega), if_neg (by omega)]
      simp only [gt_iff_lt, lt_self_iff_false, if_false]
      rw [appendHex_hexText _ _ (v6u16_lt ip 0),
        appendGroups_mid ip i (i + l) (by omega) h8 (by omega) 7 1 _ (by omega) (by omega)
          (by omega)]
      have h0 := fieldsOf_drop ip 0 (by omega)
      simp only [List.drop_zero, Nat.zero_add] at h0
      have ht : (fieldsOf ip).take i
          = hexText (v6u16 ip 0) :: ((fieldsOf ip).drop 1).take (i - 1) := by
        conv_lhs => rw [h0, show i = (i - 1) + 1 by omega, List.take_succ_cons]
      rw [ht, intercalate_cons]
      simp


/-! ## The standard text determines the address -/

theorem splitOn_append_sep (A B : List Byte) :
    (A ++ 0x3a :: B).splitOn 0x3a = A.splitOn 0x3a ++ B.splitOn 0x3a := by
  simp only [List.splitOn]
  induction A with
  | nil => simp
  | cons a A ih =>
    rw [List.cons_append, List.splitOnP_cons, List.splitOnP_cons, ih]
    by_cases h : (a == (0x3a : Byte)) = true
    · simp [h]
    · rw [if_neg h, if_neg h]
      cases hs : List.splitOnP (fun x => x == (0x3a : Byte)) A with
      | nil => exact absurd hs (List.splitOnP_ne_nil _ _)
      | cons f fs => simp [List.modifyHead]

theorem splitOn_intercalate_clean (fs : List GoString) (h : CleanFields fs) :
    (List.intercalate [0x3a] fs).splitOn 0x3a = if fs = [] then [[]] else fs := by
  by_cases he : fs = []
  · subst he; simp [List.intercalate]
  · rw [if_neg he]
    exact List.splitOn_intercalate fs 0x3a (fun l hl => (h l hl).2) he

theorem clean_isEmpty (fs : List GoString) (h : CleanFields fs) :
    ∀ f ∈ fs, (!f.isEmpty) = true := by
  intro f hf
  have := (h f hf).1
  cases f with
  | nil => exact absurd rfl this
  | cons _ _ => rfl

theorem clean_not_mem (fs : List GoString) (h : CleanFields fs) : ([] : GoString) ∉ fs :=
  fun hm => (h [] hm).1 rfl

theorem expandFields_clean (fs : List GoString) (h : CleanFields fs) :
    expandFields fs = fs := by
  unfold expandFields
  rw [if_neg (clean_not_mem fs h)]

theorem expandFields_run (pre post : List GoString) (hpre : CleanFields pre)
    (hpost : CleanFields post) :
    expandFields ((List.intercalate [0x3a] pre ++ [0x3a, 0x3a] ++
        List.intercalate [0x3a] post).splitOn 0x3a) =
      pre ++ List.replicate (8 - pre.length - post.length) (hexText 0) ++ post := by
  have e : List.intercalate [0x3a] pre ++ [0x3a, 0x3a] ++ List.intercalate [0x3a] post =
      List.intercalate [0x3a] pre ++ 0x3a :: ([] ++ 0x3a :: List.intercalate [0x3a] post) := by
    simp
  rw [e, splitOn_append_sep, splitOn_append_sep, splitOn_intercalate_clean pre hpre,
    splitOn_intercalate_clean post hpost]
  have hp1 := clean_isEmpty pre hpre
  have hp2 := clean_isEmpty post hpost
  have hfilter : (if post = [] then [[]] else post).filter (fun f => !f.isEmpty) = post := by
    by_cases hq : post = []
    · subst hq; simp
    · rw [if_neg hq]
      exact List.filter_eq_self.2 hp2
  have hsplit : ([] : List Byte).splitOn 0x3a = [[]] := rfl
  rw [hsplit]
  by_cases hq : pre = []
  · subst hq
    simp only [if_true, expandFields, List.singleton_append, List.mem_cons, true_or, if_true,
      List.takeWhile_cons, List.isEmpty_nil, Bool.not_true, Bool.false_eq_true, if_false,
      List.dropWhile_cons, List.filter_cons, List.length_nil, List.nil_append, List.cons_append,
      hfilter]
  · rw [if_neg hq]
    have hmem : ([] : GoString) ∈ pre ++ ([[]] ++ if post = [] then [[]] else post) := by simp
    simp only [expandFields, if_pos hmem]
    rw [List.takeWhile_append_of_pos hp1, List.dropWhile_append_of_pos hp1]
    simp [hfilter]

theorem take_mid_drop {α : Type} (fs : List α) (i l : Nat) :
    fs.take i ++ (fs.drop i).take l ++ fs.drop (i + l) = fs := by
  have h : (fs.drop i).drop l = fs.drop (i + l) := by
    rw [List.drop_drop, Nat.add_comm]
  rw [List.append_assoc, ← h, List.take_append_drop, List.take_append_drop]

theorem fieldsOf_clean (ip : List Byte) : CleanFields (fieldsOf ip) := by
  intro f hf
  obtain ⟨x, hx, rfl⟩ := List.mem_map.1 hf
  exact ⟨hexText_ne_nil x (groupsOf_lt ip x hx), hexText_no_colon x (groupsOf_lt ip x hx)⟩

/-- The fields of the standard text are the eight groups of the address. -/
theorem expandFields_rfc5952 (ip : List Byte) :
    expandFields ((rfc5952 ip).splitOn 0x3a) = fieldsOf ip := by
  have hf : (groupsOf ip).map hexText = fieldsOf ip := rfl
  have hc := fieldsOf_clean ip
  rcases zeroRun_facts ip with ⟨hl, _⟩ | ⟨i, l, hl, _, h2, h8, hz⟩
  · simp only [rfc5952, hl, hf]
    rw [splitOn_intercalate_clean _ hc, if_neg, expandFields_clean _ hc]
    intro h
    have := fieldsOf_length ip
    rw [h] at this
    simp at this
  · simp only [rfc5952, hl, List.map_take, List.map_drop, hf]
    have hpre : CleanFields ((fieldsOf ip).take i) := fun f hm => hc f (List.mem_of_mem_take hm)
    have hpost : CleanFields ((fieldsOf ip).drop (i + l)) :=
      fun f hm => hc f (List.mem_of_mem_drop hm)
    rw [expandFields_run _ _ hpre hpost]
    have hlen : 8 - ((fieldsOf ip).take i).length - ((fieldsOf ip).drop (i + l)).length = l := by
      simp only [List.length_take, List.length_drop, fieldsOf_length]
      omega
    have hmid : ((groupsOf ip).drop i).take l = List.replicate l 0 := by
      rw [List.eq_replicate_iff]
      refine ⟨?_, hz⟩
      simp only [List.length_take, List.length_drop, groupsOf_length]
      omega
    have hmid' : ((fieldsOf ip).drop i).take l = List.replicate l (hexText 0) := by
      rw [← hf, ← List.map_drop, ← List.map_take, hmid, List.map_replicate]
    rw [hlen, ← hmid']
    exact take_mid_drop (fieldsOf ip) i l

theorem groupsOf_inj (ip ip' : List Byte) (h : ip.length = 16) (h' : ip'.length = 16)
    (hg : groupsOf ip = groupsOf ip') : ip = ip' := by
  obtain ⟨a0, a1, a2, a3, a4, a5, a6, a7, a8, a9, a10, a11, a12, a13, a14, a15, rfl⟩ :=
    length_eq_sixteen ip h
  obtain ⟨b0, b1, b2, b3, b4, b5, b6, b7, b8, b9, b10, b11, b12, b13, b14, b15, rfl⟩ :=
    length_eq_sixteen ip' h'
  simp only [groupsOf, List.range, List.range.loop, List.map, List.getD_cons_zero,
    List.getD_cons_succ, List.cons.injEq, and_true] at hg
  have key : ∀ (x y u v : Byte), 256 * x.val + y.val = 256 * u.val + v.val → x = u ∧ y = v := by
    intro x y u v hxy
    have := x.isLt; have := y.isLt; have := u.isLt; have := v.isLt
    exact ⟨Fin.ext (by omega), Fin.ext (by omega)⟩
  obtain ⟨g0, g1, g2, g3, g4, g5, g6, g7⟩ := hg
  obtain ⟨e0, e1⟩ := key _ _ _ _ g0
  obtain ⟨e2, e3⟩ := key _ _ _ _ g1
  obtain ⟨e4, e5⟩ := key _ _ _ _ g2
  obtain ⟨e6, e7⟩ := key _ _ _ _ g3
  obtain ⟨e8, e9⟩ := key _ _ _ _ g4
  obtain ⟨e10, e11⟩ := key _ _ _ _ g5
  obtain ⟨e12, e13⟩ := key _ _ _ _ g6
  obtain ⟨e14, e15⟩ := key _ _ _ _ g7
  subst e0 e1 e2 e3 e4 e5 e6 e7 e8 e9 e10 e11 e12 e13 e14 e15
  rfl

theorem fieldsOf_inj (ip ip' : List Byte) (h : fieldsOf ip = fieldsOf ip') :
    groupsOf ip = groupsOf ip' := by
  have hl := groupsOf_lt ip
  have hl' := groupsOf_lt ip'
  simp only [fieldsOf] at h
  rw [groupsOf_eq] at h hl ⊢
  rw [groupsOf_eq] at h hl' ⊢
  simp only [List.map, List.cons.injEq, and_true] at h
  simp only [List.mem_cons, List.mem_singleton, List.not_mem_nil, or_false, forall_eq_or_imp,
    forall_eq] at hl hl'
  obtain ⟨g0, g1, g2, g3, g4, g5, g6, g7⟩ := h
  obtain ⟨l0, l1, l2, l3, l4, l5, l6, l7⟩ := hl
  obtain ⟨m0, m1, m2, m3, m4, m5, m6, m7⟩ := hl'
  rw [hexText_inj _ _ l0 m0 g0, hexText_inj _ _ l1 m1 g1, hexText_inj _ _ l2 m2 g2,
    hexText_inj _ _ l3 m3 g3, hexText_inj _ _ l4 m4 g4, hexText_inj _ _ l5 m5 g5,
    hexText_inj _ _ l6 m6 g6, hexText_inj _ _ l7 m7 g7]

/-- The standard text determines the 16 bytes of the address. -/
theorem rfc5952_inj (ip ip' : List Byte) (h : ip.length = 16) (h' : ip'.length = 16)
    (ht : rfc5952 ip = rfc5952 ip') : ip = ip' := by
  apply groupsOf_inj ip ip' h h'
  apply fieldsOf_inj
  rw [← expandFields_rfc5952 ip, ← expandFields_rfc5952 ip', ht]

/-- The text of a 16-byte `net.IP`: dotted decimal for an IPv4-mapped address,
the standard IPv6 text otherwise. -/
theorem IP_String_sixteen (ip : List Byte) (h : ip.length = 16) :
    IP.String ip =
      if ip.take 12 = v4InV6Prefix then
        dottedDecimal (ip.getD 12 0) (ip.getD 13 0) (ip.getD 14 0) (ip.getD 15 0)
      else rfc5952 ip := by
  have h0 : ¬ ip.length = 0 := by omega
  have h1 : ¬ (ip.length ≠ IPv4len ∧ ip.length ≠ IPv6len) := by simp [IPv6len, h]
  by_cases hm : ip.take 12 = v4InV6Prefix
  · rw [if_pos hm, IP.String, if_neg h0, if_neg h1, To4_of_mapped ip h hm]
    obtain ⟨a0, a1, a2, a3, a4, a5, a6, a7, a8, a9, a10, a11, a12, a13, a14, a15, rfl⟩ :=
      length_eq_sixteen ip h
    have := IP_String_four a12 a13 a14 a15
    simp only [IP.String, List.length_cons, List.length_nil, IPv4len, IPv6len,
      To4_of_length_four [a12, a13, a14, a15] rfl] at this
    simpa using this
  · rw [if_neg hm, IP.String, if_neg h0, if_neg h1, To4_of_not_mapped ip h hm]
    exact appendTo6_eq ip

theorem dottedDecimal_ne_rfc5952 (a b c d : Byte) (ip : List Byte) :
    dottedDecimal a b c d ≠ rfc5952 ip := by
  intro he
  have h1 := expandFields_rfc5952 ip
  rw [← he, List.splitOn, List.splitOnP_eq_single] at h1
  · have hc : CleanFields [dottedDecimal a b c d] := by
      intro f hf
      rw [List.mem_singleton] at hf
      subst hf
      exact ⟨dottedDecimal_ne_nil a b c d, dottedDecimal_no_colon a b c d⟩
    rw [expandFields_clean _ hc] at h1
    have := fieldsOf_length ip
    rw [← h1] at this
    simp at this
  · intro x hx hc
    have : x = 0x3a := by simpa using hc
    subst this
    exact dottedDecimal_no_colon a b c d hx

theorem IP_String_inj_sixteen (ip ip' : List Byte) (h : ip.length = 16) (h' : ip'.length = 16)
    (he : IP.String ip = IP.String ip') : ip = ip' := by
  rw [IP_String_sixteen ip h, IP_String_sixteen ip' h'] at he
  by_cases hm : ip.take 12 = v4InV6Prefix <;> by_cases hm' : ip'.take 12 = v4InV6Prefix
  · rw [if_pos hm, if_pos hm'] at he
    obtain ⟨e1, e2, e3, e4⟩ := dottedDecimal_inj _ _ _ _ _ _ _ _ he
    obtain ⟨a0, a1, a2, a3, a4, a5, a6, a7, a8, a9, a10, a11, a12, a13, a14, a15, rfl⟩ :=
      length_eq_sixteen ip h
    obtain ⟨b0, b1, b2, b3, b4, b5, b6, b7, b8, b9, b10, b11, b12, b13, b14, b15, rfl⟩ :=
      length_eq_sixteen ip' h'
    rw [← hm'] at hm
    simp only [List.take, List.cons.injEq, and_true] at hm
    simp only [List.getD_cons_zero, List.getD_cons_succ] at e1 e2 e3 e4
    obtain ⟨c0, c1, c2, c3, c4, c5, c6, c7, c8, c9, c10, c11⟩ := hm
    subst c0 c1 c2 c3 c4 c5 c6 c7 c8 c9 c10 c11 e1 e2 e3 e4
    rfl
  · rw [if_pos hm, if_neg hm'] at he
    exact absurd he (dottedDecimal_ne_rfc5952 _ _ _ _ _)
  · rw [if_neg hm, if_pos hm'] at he
    exact absurd he.symm (dottedDecimal_ne_rfc5952 _ _ _ _ _)
  · rw [if_neg hm, if_neg hm'] at he
    exact rfc5952_inj ip ip' h h' he


/-! ## `handleRequest`: claims C3 to C7 -/

/-- An IPv4 `CONNECT` request resolves to the text of its 4 address bytes and its
port, and exactly the request is consumed. -/
theorem handleRequest_ipv4 (reader : Reader) (rsv : Byte) (addr port rest : List Byte)
    (ha : addr.length = 4) (hp : port.length = 2)
    (hs : reader.stream = [0x05, 0x01, rsv, 0x01] ++ addr ++ port ++ rest) :
    ∃ r, handleRequest reader = (.ok (IP.String addr, Uint16 port), r) ∧ r.stream = rest := by
  have hs0 : reader.stream = [0x05, 0x01, rsv, 0x01] ++ (addr ++ (port ++ rest)) := by
    simpa using hs
  obtain ⟨r0, h0, hs1⟩ := ReadFull_ok reader [0x05, 0x01, rsv, 0x01] _ hs0
  obtain ⟨r1, h1, hs2⟩ := ReadFull_ok r0 addr _ hs1
  obtain ⟨r2, h2, hs3⟩ := ReadFull_ok r1 port _ hs2
  rw [ha] at h1
  rw [hp] at h2
  have h0a : ReadFull 4 reader = (.ok [0x05, 0x01, rsv, 0x01], r0) := h0
  refine ⟨r2, ?_, hs3⟩
  simp [handleRequest, h0a, h1, h2, socks5Version, connectCmd, ipv4Addr, IPv4len]

/-- A domain `CONNECT` request resolves to its name bytes and its port, and
exactly the request is consumed. -/
theorem handleRequest_domain (reader : Reader) (rsv L : Byte) (name port rest : List Byte)
    (hn : name.length = L.val) (hp : port.length = 2)
    (hs : reader.stream = [0x05, 0x01, rsv, 0x03, L] ++ name ++ port ++ rest) :
    ∃ r, handleRequest reader = (.ok (name, Uint16 port), r) ∧ r.stream = rest := by
  have hs0 : reader.stream = [0x05, 0x01, rsv, 0x03] ++ (L :: (name ++ (port ++ rest))) := by
    simpa using hs
  obtain ⟨r0, h0, hs1⟩ := ReadFull_ok reader [0x05, 0x01, rsv, 0x03] _ hs0
  obtain ⟨rL, hL, hsL⟩ := ReadByte_ok r0 L _ hs1
  obtain ⟨r1, h1, hs2⟩ := ReadFull_ok rL name _ hsL
  obtain ⟨r2, h2, hs3⟩ := ReadFull_ok r1 port _ hs2
  rw [hn] at h1
  rw [hp] at h2
  have h0a : ReadFull 4 reader = (.ok [0x05, 0x01, rsv, 0x03], r0) := h0
  refine ⟨r2, ?_, hs3⟩
  simp [handleRequest, h0a, hL, h1, h2, socks5Version, connectCmd, ipv4Addr, domainAddr]

/-- An IPv6 `CONNECT` request resolves to the text of its 16 address bytes and
its port, and exactly the request is consumed. -/
theorem handleRequest_ipv6 (reader : Reader) (rsv : Byte) (addr port rest : List Byte)
    (ha : addr.length = 16) (hp : port.length = 2)
    (hs : reader.stream = [0x05, 0x01, rsv, 0x04] ++ addr ++ port ++ rest) :
    ∃ r, handleRequest reader = (.ok (IP.String addr, Uint16 port), r) ∧ r.stream = rest := by
  have hs0 : reader.stream = [0x05, 0x01, rsv, 0x04] ++ (addr ++ (port ++ rest)) := by
    simpa using hs
  obtain ⟨r0, h0, hs1⟩ := ReadFull_ok reader [0x05, 0x01, rsv, 0x04] _ hs0
  obtain ⟨r1, h1, hs2⟩ := ReadFull_ok r0 addr _ hs1
  obtain ⟨r2, h2, hs3⟩ := ReadFull_ok r1 port _ hs2
  rw [ha] at h1
  rw [hp] at h2
  have h0a : ReadFull 4 reader = (.ok [0x05, 0x01, rsv, 0x04], r0) := h0
  refine ⟨r2, ?_, hs3⟩
  simp [handleRequest, h0a, h1, h2, socks5Version, connectCmd, ipv4Addr, domainAddr,
    ipv6Addr, IPv6len]

/-- The three forms of a well-formed `CONNECT` request. -/
theorem validRequest_cases (req : List Byte) (hv : validRequest req = true) :
    ∃ rsv,
      (∃ addr port, addr.length = 4 ∧ port.length = 2 ∧
        req = [0x05, 0x01, rsv, 0x01] ++ addr ++ port) ∨
      (∃ L name port, name.length = L.val ∧ port.length = 2 ∧
        req = [0x05, 0x01, rsv, 0x03, L] ++ name ++ port) ∨
      (∃ addr port, addr.length = 16 ∧ port.length = 2 ∧
        req = [0x05, 0x01, rsv, 0x04] ++ addr ++ port) := by
  rcases req with _ | ⟨ver, _ | ⟨cmd, _ | ⟨rsv, _ | ⟨atyp, t⟩⟩⟩⟩
  · simp [validRequest] at hv
  · simp [validRequest] at hv
  · simp [validRequest] at hv
  · simp [validRequest] at hv
  · simp only [validRequest, Bool.and_eq_true, Bool.or_eq_true, decide_eq_true_eq] at hv
    obtain ⟨⟨hver, hcmd⟩, hat⟩ := hv
    subst hver hcmd
    refine ⟨rsv, ?_⟩
    rcases hat with (⟨hat, hl⟩ | ⟨hat, hl⟩) | ⟨hat, hl⟩
    · subst hat
      exact Or.inl ⟨t.take 4, t.drop 4, by simp [hl], by simp [hl], by simp⟩
    · subst hat
      rcases t with _ | ⟨L, t⟩
      · simp at hl
      · simp only [decide_eq_true_eq] at hl
        exact Or.inr (Or.inl ⟨L, t.take L.val, t.drop L.val, by simp [hl], by simp [hl],
          by simp⟩)
    · subst hat
      exact Or.inr (Or.inr ⟨t.take 16, t.drop 16, by simp [hl], by simp [hl], by simp⟩)

/-- On a stream that starts with a well-formed `CONNECT` request, `handleRequest`
succeeds, consumes exactly the request, and returns what it returns on the
request alone. -/
theorem handleRequest_valid (reader : Reader) (req rest : List Byte)
    (hv : validRequest req = true) (hs : reader.stream = req ++ rest) :
    ∃ host port r, handleRequest reader = (.ok (host, port), r) ∧ r.stream = rest ∧
      (handleRequest ⟨req, []⟩).1 = .ok (host, port) := by
  rcases req with _ | ⟨ver, _ | ⟨cmd, _ | ⟨rsv, _ | ⟨atyp, t⟩⟩⟩⟩
  · simp [validRequest] at hv
  · simp [validRequest] at hv
  · simp [validRequest] at hv
  · simp [validRequest] at hv
  · simp only [validRequest, Bool.and_eq_true, Bool.or_eq_true, decide_eq_true_eq] at hv
    obtain ⟨⟨hver, hcmd⟩, hat⟩ := hv
    subst hver hcmd
    rcases hat with (⟨hat, hl⟩ | ⟨hat, hl⟩) | ⟨hat, hl⟩
    · subst hat
      have ht : t = t.take 4 ++ t.drop 4 := (List.take_append_drop 4 t).symm
      have h1 : (t.take 4).length = 4 := by simp [hl]
      have h2 : (t.drop 4).length = 2 := by simp [hl]
      obtain ⟨r, hr, hrs⟩ := handleRequest_ipv4 reader rsv (t.take 4) (t.drop 4) rest h1 h2
        (by rw [hs]; simp)
      obtain ⟨r', hr', _⟩ := handleRequest_ipv4 ⟨0x05 :: 0x01 :: rsv :: 0x01 :: t, []⟩ rsv
        (t.take 4) (t.drop 4) [] h1 h2 (by simp [Reader.stream, flatten])
      exact ⟨_, _, r, hr, hrs, by rw [hr']⟩
    · subst hat
      rcases t with _ | ⟨L, t⟩
      · simp at hl
      · simp only [decide_eq_true_eq] at hl
        have h1 : (t.take L.val).length = L.val := by simp [hl]
        have h2 : (t.drop L.val).length = 2 := by simp [hl]
        obtain ⟨r, hr, hrs⟩ := handleRequest_domain reader rsv L (t.take L.val)
          (t.drop L.val) rest h1 h2 (by rw [hs]; simp)
        obtain ⟨r', hr', _⟩ := handleRequest_domain ⟨0x05 :: 0x01 :: rsv :: 0x03 :: L :: t, []⟩
          rsv L (t.take L.val) (t.drop L.val) [] h1 h2 (by simp [Reader.stream, flatten])
        exact ⟨_, _, r, hr, hrs, by rw [hr']⟩
    · subst hat
      have h1 : (t.take 16).length = 16 := by simp [hl]
      have h2 : (t.drop 16).length = 2 := by simp [hl]
      obtain ⟨r, hr, hrs⟩ := handleRequest_ipv6 reader rsv (t.take 16) (t.drop 16) rest h1 h2
        (by rw [hs]; simp)
      obtain ⟨r', hr', _⟩ := handleRequest_ipv6 ⟨0x05 :: 0x01 :: rsv :: 0x04 :: t, []⟩ rsv
        (t.take 16) (t.drop 16) [] h1 h2 (by simp [Reader.stream, flatten])
      exact ⟨_, _, r, hr, hrs, by rw [hr']⟩

/-- C3: every IPv4 `CONNECT` request `[0x05, 0x01, rsv, 0x01, a, b, c, d, p_hi, p_lo]`
makes `handleRequest` succeed with host the dotted-decimal text `a.b.c.d` and
port `256 * p_hi + p_lo`, having consumed exactly the ten bytes. -/
theorem handleRequest_ipv4_resolves (reader : Reader) (rsv a b c d p_hi p_lo : Byte)
    (rest : List Byte)
    (hs : reader.stream = [0x05, 0x01, rsv, 0x01, a, b, c, d, p_hi, p_lo] ++ rest) :
    (handleRequest reader).1 = .ok (dottedDecimal a b c d, 256 * p_hi.val + p_lo.val) ∧
    (handleRequest reader).2.stream = rest := by
  obtain ⟨r, h, hr⟩ := handleRequest_ipv4 reader rsv [a, b, c, d] [p_hi, p_lo] rest rfl rfl
    (by simpa using hs)
  rw [h, IP_String_four, Uint16_eq]
  exact ⟨rfl, hr⟩

theorem handleRequest_ipv4_resolves_witness :
    (handleRequest ⟨[], [⟨0x05, [0x01, 0x00, 0x01, 0x7f, 0x00]⟩,
        ⟨0x00, [0x01, 0x00, 0x50, 0x47]⟩]⟩).1
      = .ok (str "127.0.0.1", 80) ∧
    (handleRequest ⟨[], [⟨0x05, [0x01, 0x00, 0x01, 0x7f, 0x00]⟩,
        ⟨0x00, [0x01, 0x00, 0x50, 0x47]⟩]⟩).2.stream = [0x47] :=
  handleRequest_ipv4_resolves
    ⟨[], [⟨0x05, [0x01, 0x00, 0x01, 0x7f, 0x00]⟩, ⟨0x00, [0x01, 0x00, 0x50, 0x47]⟩]⟩
    0x00 0x7f 0x00 0x00 0x01 0x00 0x50 [0x47] (by decide)

/-- C4: every domain `CONNECT` request `[0x05, 0x01, rsv, 0x03, L, n_1..n_L, p_hi, p_lo]`,
for any length byte `L` (`L = 0` included), makes `handleRequest` succeed with
host exactly the `L` name bytes and port `256 * p_hi + p_lo`, having consumed
exactly the request. -/
theorem handleRequest_domain_resolves (reader : Reader) (rsv L p_hi p_lo : Byte)
    (name rest : List Byte) (hn : name.length = L.val)
    (hs : reader.stream = [0x05, 0x01, rsv, 0x03, L] ++ name ++ [p_hi, p_lo] ++ rest) :
    (handleRequest reader).1 = .ok (name, 256 * p_hi.val + p_lo.val) ∧
    (handleRequest reader).2.stream = rest := by
  obtain ⟨r, h, hr⟩ := handleRequest_domain reader rsv L name [p_hi, p_lo] rest hn rfl hs
  rw [h, Uint16_eq]
  exact ⟨rfl, hr⟩

theorem handleRequest_domain_resolves_witness :
    (handleRequest ⟨[0x05, 0x01, 0x00], [⟨0x03, [0x0b, 0x65, 0x78, 0x61, 0x6d]⟩,
        ⟨0x70, [0x6c, 0x65, 0x2e, 0x63, 0x6f, 0x6d, 0x01, 0xbb]⟩]⟩).1
      = .ok (str "example.com", 256 * (0x01 : Byte).val + (0xbb : Byte).val) ∧
    (handleRequest ⟨[0x05, 0x01, 0x00], [⟨0x03, [0x0b, 0x65, 0x78, 0x61, 0x6d]⟩,
        ⟨0x70, [0x6c, 0x65, 0x2e, 0x63, 0x6f, 0x6d, 0x01, 0xbb]⟩]⟩).2.stream = [] :=
  handleRequest_domain_resolves
    ⟨[0x05, 0x01, 0x00], [⟨0x03, [0x0b, 0x65, 0x78, 0x61, 0x6d]⟩,
      ⟨0x70, [0x6c, 0x65, 0x2e, 0x63, 0x6f, 0x6d, 0x01, 0xbb]⟩]⟩
    0x00 0x0b 0x01 0xbb (str "example.com") [] (by decide) (by decide)

set_option maxRecDepth 100000 in
/-- C5, counterexample: for the IPv4-mapped address `::ffff:1.2.3.4` sent with
address type `0x04`, the host `handleRequest` returns is `1.2.3.4`, not the IPv6
text of the 16 bytes (`::ffff:1.2.3.4`, or `::ffff:102:304` in groups only). -/
theorem handleRequest_ipv4_mapped_host_is_dotted :
    (handleRequest ⟨[0x05, 0x01, 0x00, 0x04, 0, 0, 0, 0, 0, 0, 0, 0, 0, 0, 0xff, 0xff,
        0x01, 0x02, 0x03, 0x04, 0x00, 0x50], []⟩).1 = .ok (str "1.2.3.4", 80) ∧
    ipv6Text [0, 0, 0, 0, 0, 0, 0, 0, 0, 0, 0xff, 0xff, 0x01, 0x02, 0x03, 0x04]
      = str "::ffff:1.2.3.4" ∧
    rfc5952 [0, 0, 0, 0, 0, 0, 0, 0, 0, 0, 0xff, 0xff, 0x01, 0x02, 0x03, 0x04]
      = str "::ffff:102:304" ∧
    (handleRequest ⟨[0x05, 0x01, 0x00, 0x04, 0, 0, 0, 0, 0, 0, 0, 0, 0, 0, 0xff, 0xff,
        0x01, 0x02, 0x03, 0x04, 0x00, 0x50], []⟩).1 ≠
      .ok (ipv6Text [0, 0, 0, 0, 0, 0, 0, 0, 0, 0, 0xff, 0xff, 0x01, 0x02, 0x03, 0x04], 80) := by
  decide

/-- C5, as amended: every `CONNECT` request with address type `0x04`, 16 address
bytes and 2 port bytes makes `handleRequest` succeed, having consumed exactly the
request, with port `256 * p_hi + p_lo` and as host the standard IPv6 text of the
16 bytes when they are not an IPv4-mapped address, and the dotted-decimal text
`a.b.c.d` of the last four bytes when they are the IPv4-mapped address
`::ffff:a.b.c.d`. -/
theorem handleRequest_ipv6_resolves (reader : Reader) (rsv p_hi p_lo : Byte)
    (addr rest : List Byte) (ha : addr.length = 16)
    (hs : reader.stream = [0x05, 0x01, rsv, 0x04] ++ addr ++ [p_hi, p_lo] ++ rest) :
    (handleRequest reader).1 =
      .ok (if addr.take 12 = v4InV6Prefix then
            dottedDecimal (addr.getD 12 0) (addr.getD 13 0) (addr.getD 14 0) (addr.getD 15 0)
          else rfc5952 addr,
        256 * p_hi.val + p_lo.val) ∧
    (handleRequest reader).2.stream = rest := by
  obtain ⟨r, h, hr⟩ := handleRequest_ipv6 reader rsv addr [p_hi, p_lo] rest ha rfl hs
  rw [h, IP_String_sixteen addr ha, Uint16_eq]
  exact ⟨rfl, hr⟩

set_option maxRecDepth 100000 in
theorem handleRequest_ipv6_resolves_witness :
    (handleRequest ⟨[], [⟨0x05, [0x01, 0x00, 0x04, 0x20, 0x01, 0x0d, 0xb8, 0, 0, 0, 0, 0, 0,
        0, 0, 0, 0, 0, 0x01, 0x01, 0xbb, 0x16]⟩]⟩).1 = .ok (str "2001:db8::1", 443) ∧
    (handleRequest ⟨[], [⟨0x05, [0x01, 0x00, 0x04, 0x20, 0x01, 0x0d, 0xb8, 0, 0, 0, 0, 0, 0,
        0, 0, 0, 0, 0, 0x01, 0x01, 0xbb, 0x16]⟩]⟩).2.stream = [0x16] :=
  handleRequest_ipv6_resolves
    ⟨[], [⟨0x05, [0x01, 0x00, 0x04, 0x20, 0x01, 0x0d, 0xb8, 0, 0, 0, 0, 0, 0,
        0, 0, 0, 0, 0, 0x01, 0x01, 0xbb, 0x16]⟩]⟩
    0x00 0x01 0xbb [0x20, 0x01, 0x0d, 0xb8, 0, 0, 0, 0, 0, 0, 0, 0, 0, 0, 0, 0x01] [0x16]
    (by decide) (by decide)

set_option maxRecDepth 100000 in
/-- C6, counterexample: an IPv4 request for `1.2.3.4`, a domain request for the
name `1.2.3.4` and an IPv6 request for `::ffff:1.2.3.4`, all three well-formed and
with port 80, resolve to the same `(host, port)`: the address type is not
recoverable. -/
theorem handleRequest_address_type_not_recoverable :
    validRequest [0x05, 0x01, 0x00, 0x01, 0x01, 0x02, 0x03, 0x04, 0x00, 0x50] = true ∧
    validRequest [0x05, 0x01, 0x00, 0x03, 0x07, 0x31, 0x2e, 0x32, 0x2e, 0x33, 0x2e, 0x34,
      0x00, 0x50] = true ∧
    validRequest [0x05, 0x01, 0x00, 0x04, 0, 0, 0, 0, 0, 0, 0, 0, 0, 0, 0xff, 0xff,
      0x01, 0x02, 0x03, 0x04, 0x00, 0x50] = true ∧
    (handleRequest ⟨[0x05, 0x01, 0x00, 0x01, 0x01, 0x02, 0x03, 0x04, 0x00, 0x50], []⟩).1
      = .ok (str "1.2.3.4", 80) ∧
    (handleRequest ⟨[0x05, 0x01, 0x00, 0x03, 0x07, 0x31, 0x2e, 0x32, 0x2e, 0x33, 0x2e, 0x34,
      0x00, 0x50], []⟩).1 = .ok (str "1.2.3.4", 80) ∧
    (handleRequest ⟨[0x05, 0x01, 0x00, 0x04, 0, 0, 0, 0, 0, 0, 0, 0, 0, 0, 0xff, 0xff,
      0x01, 0x02, 0x03, 0x04, 0x00, 0x50], []⟩).1 = .ok (str "1.2.3.4", 80) := by
  decide

/-- C6, as amended: the address bytes and the port of a well-formed request are
recoverable from the `(host, port)` that `handleRequest` returns once the address
type is known: two well-formed requests of the same address type that resolve to
the same `(host, port)` are equal from the address-type byte on (address type,
address field, port). -/
theorem handleRequest_injective_within_address_type (r1 r2 : Reader)
    (req1 req2 rest1 rest2 : List Byte)
    (hv1 : validRequest req1 = true) (hv2 : validRequest req2 = true)
    (hs1 : r1.stream = req1 ++ rest1) (hs2 : r2.stream = req2 ++ rest2)
    (ht : req1.getD 3 0 = req2.getD 3 0)
    (he : (handleRequest r1).1 = (handleRequest r2).1) :
    req1.drop 3 = req2.drop 3 := by
  obtain ⟨rsv1, c1⟩ := validRequest_cases req1 hv1
  obtain ⟨rsv2, c2⟩ := validRequest_cases req2 hv2
  rcases c1 with ⟨a1, p1, ha1, hp1, rfl⟩ | ⟨L1, n1, p1, hn1, hp1, rfl⟩ | ⟨a1, p1, ha1, hp1, rfl⟩ <;>
    rcases c2 with ⟨a2, p2, ha2, hp2, rfl⟩ | ⟨L2, n2, p2, hn2, hp2, rfl⟩ |
      ⟨a2, p2, ha2, hp2, rfl⟩
  · obtain ⟨_, h1, _⟩ := handleRequest_ipv4 r1 rsv1 a1 p1 rest1 ha1 hp1 hs1
    obtain ⟨_, h2, _⟩ := handleRequest_ipv4 r2 rsv2 a2 p2 rest2 ha2 hp2 hs2
    rw [h1, h2] at he
    simp only [Except.ok.injEq, Prod.mk.injEq] at he
    rw [IP_String_inj_four a1 a2 ha1 ha2 he.1, Uint16_inj p1 p2 hp1 hp2 he.2]
    simp
  · exact absurd ht (by simp)
  · exact absurd ht (by simp)
  · exact absurd ht (by simp)
  · obtain ⟨_, h1, _⟩ := handleRequest_domain r1 rsv1 L1 n1 p1 rest1 hn1 hp1 hs1
    obtain ⟨_, h2, _⟩ := handleRequest_domain r2 rsv2 L2 n2 p2 rest2 hn2 hp2 hs2
    rw [h1, h2] at he
    simp only [Except.ok.injEq, Prod.mk.injEq] at he
    obtain ⟨e1, e2⟩ := he
    subst e1
    have eL : L1 = L2 := Fin.ext (by rw [← hn1, ← hn2])
    rw [eL, Uint16_inj p1 p2 hp1 hp2 e2]
    simp
  · exact absurd ht (by simp)
  · exact absurd ht (by simp)
  · exact absurd ht (by simp)
  · obtain ⟨_, h1, _⟩ := handleRequest_ipv6 r1 rsv1 a1 p1 rest1 ha1 hp1 hs1
    obtain ⟨_, h2, _⟩ := handleRequest_ipv6 r2 rsv2 a2 p2 rest2 ha2 hp2 hs2
    rw [h1, h2] at he
    simp only [Except.ok.injEq, Prod.mk.injEq] at he
    rw [IP_String_inj_sixteen a1 a2 ha1 ha2 he.1, Uint16_inj p1 p2 hp1 hp2 he.2]
    simp

set_option maxRecDepth 100000 in
theorem handleRequest_injective_within_address_type_witness :
    List.drop 3 [(0x05 : Byte), 0x01, 0x00, 0x01, 0x7f, 0x00, 0x00, 0x01, 0x00, 0x50] =
      List.drop 3 [(0x05 : Byte), 0x01, 0x09, 0x01, 0x7f, 0x00, 0x00, 0x01, 0x00, 0x50] :=
  handleRequest_injective_within_address_type
    ⟨[], [⟨0x05, [0x01, 0x00, 0x01, 0x7f, 0x00, 0x00, 0x01, 0x00, 0x50, 0x01]⟩]⟩
    ⟨[0x05, 0x01, 0x09, 0x01, 0x7f], [⟨0x00, [0x00, 0x01, 0x00, 0x50]⟩]⟩
    [0x05, 0x01, 0x00, 0x01, 0x7f, 0x00, 0x00, 0x01, 0x00, 0x50]
    [0x05, 0x01, 0x09, 0x01, 0x7f, 0x00, 0x00, 0x01, 0x00, 0x50] [0x01] []
    (by decide) (by decide) (by decide) (by decide) (by decide) (by decide)

/-- C7: on every request whose header `[0x05, cmd, rsv, atyp]` has a command other
than `0x01` or an address type outside `0x01`, `0x03`, `0x04`, `handleRequest`
returns an error and the reader is as the 4-byte header read left it: every byte
after the header is still unread. -/
theorem handleRequest_unsupported_reads_header_only (reader : Reader) (cmd rsv atyp : Byte)
    (rest : List Byte) (hs : reader.stream = [0x05, cmd, rsv, atyp] ++ rest)
    (hbad : cmd ≠ 0x01 ∨ (atyp ≠ 0x01 ∧ atyp ≠ 0x03 ∧ atyp ≠ 0x04)) :
    (handleRequest reader).1 =
      .error (if cmd ≠ 0x01 then Error.New "unsupported command"
        else Error.New "unsupported address type") ∧
    (handleRequest reader).2 = (ReadFull 4 reader).2 ∧
    (handleRequest reader).2.stream = rest := by
  obtain ⟨r0, h0, hs1⟩ := ReadFull_ok reader [0x05, cmd, rsv, atyp] rest hs
  have h0a : ReadFull 4 reader = (.ok [0x05, cmd, rsv, atyp], r0) := h0
  by_cases hc : cmd = 0x01
  · have hat : atyp ≠ 0x01 ∧ atyp ≠ 0x03 ∧ atyp ≠ 0x04 := by
      rcases hbad with h | h
      · exact absurd hc h
      · exact h
    have hr : handleRequest reader = (.error (Error.New "unsupported address type"), r0) := by
      simp [handleRequest, h0a, hc, hat.1, hat.2.1, hat.2.2, socks5Version, connectCmd,
        ipv4Addr, domainAddr, ipv6Addr]
    rw [hr, h0a]
    simp [hc, hs1]
  · have hr : handleRequest reader = (.error (Error.New "unsupported command"), r0) := by
      simp [handleRequest, h0a, hc, socks5Version, connectCmd]
    rw [hr, h0a]
    simp [hc, hs1]

theorem handleRequest_unsupported_reads_header_only_witness :
    (handleRequest ⟨[], [⟨0x05, [0x01, 0x00, 0x05, 0x7f, 0x00]⟩]⟩).1 =
      .error (if (0x01 : Byte) ≠ 0x01 then Error.New "unsupported command"
        else Error.New "unsupported address type") ∧
    (handleRequest ⟨[], [⟨0x05, [0x01, 0x00, 0x05, 0x7f, 0x00]⟩]⟩).2
      = (ReadFull 4 ⟨[], [⟨0x05, [0x01, 0x00, 0x05, 0x7f, 0x00]⟩]⟩).2 ∧
    (handleRequest ⟨[], [⟨0x05, [0x01, 0x00, 0x05, 0x7f, 0x00]⟩]⟩).2.stream = [0x7f, 0x00] :=
  handleRequest_unsupported_reads_header_only ⟨[], [⟨0x05, [0x01, 0x00, 0x05, 0x7f, 0x00]⟩]⟩
    0x01 0x00 0x05 [0x7f, 0x00] (by decide) (by decide)


/-! ## `writeReply`: claims C8 and C9 -/

/-- What `writeReply` does with a TCP address whose `IP` is not `nil`. -/
theorem writeReply_tcp (writer : Writer) (rep : Byte) (ip : List Byte) (port : Int) :
    writeReply writer rep (some (Addr.TCPAddr (some ip) port)) =
      ((writer.Write ((match To4 ip with
          | some ipv4 => [0x05, rep, 0x00, 0x01] ++ ipv4
          | none => [0x05, rep, 0x00, 0x04] ++ ip) ++ PutUint16 (toUint16 port))).1.2,
       (writer.Write ((match To4 ip with
          | some ipv4 => [0x05, rep, 0x00, 0x01] ++ ipv4
          | none => [0x05, rep, 0x00, 0x04] ++ ip) ++ PutUint16 (toUint16 port))).2) := by
  simp only [writeReply, socks5Version, ipv4Addr, ipv6Addr]

set_option maxRecDepth 100000 in
/-- C8, counterexample: for the success status and the bound address
`[::ffff:127.0.0.1]:54321`, whose `IP` is the 16 bytes of the IPv4-mapped form,
`writeReply` writes the 10 bytes `05 00 00 01 7F 00 00 01 D4 31`, tag `0x01` and
the last 4 address bytes, and not the 22 bytes made of `05 00 00 04`, the 16 bytes
of `IP` and the port. -/
theorem writeReply_ipv4_mapped_gets_ipv4_tag :
    ([0, 0, 0, 0, 0, 0, 0, 0, 0, 0, 0xff, 0xff, 0x7f, 0x00, 0x00, 0x01] : List Byte).length = 16 ∧
    writeReply ⟨[], none⟩ repSuccess (some (Addr.TCPAddr
        (some [0, 0, 0, 0, 0, 0, 0, 0, 0, 0, 0xff, 0xff, 0x7f, 0x00, 0x00, 0x01]) 54321)) =
      (none, ⟨[0x05, 0x00, 0x00, 0x01, 0x7f, 0x00, 0x00, 0x01, 0xd4, 0x31], none⟩) ∧
    (writeReply ⟨[], none⟩ repSuccess (some (Addr.TCPAddr
        (some [0, 0, 0, 0, 0, 0, 0, 0, 0, 0, 0xff, 0xff, 0x7f, 0x00, 0x00, 0x01]) 54321))).2.written ≠
      [0x05, 0x00, 0x00, 0x04] ++
        [0, 0, 0, 0, 0, 0, 0, 0, 0, 0, 0xff, 0xff, 0x7f, 0x00, 0x00, 0x01] ++ [0xd4, 0x31] := by
  decide

/-- C8, as amended: for every status byte and every bound TCP address `(ip, port)`
with `0 <= port <= 65535`, `writeReply` makes exactly one write, of
`[0x05, status, 0x00, tag]`, the address bytes and the two port bytes
`hi, lo` with `256 * hi + lo = port`: tag `0x01` and the 4 bytes of `ip` when `ip`
is 4 bytes long, tag `0x01` and the last 4 bytes of `ip` when `ip` is a 16-byte
IPv4-mapped address (its first 12 bytes are ten `0x00` and two `0xff`), tag `0x04`
and the 16 bytes of `ip` when `ip` is 16 bytes long and not IPv4-mapped. -/
theorem writeReply_bound_address (writer : Writer) (rep : Byte) (ip : List Byte) (port : Int)
    (h0 : 0 ≤ port) (h1 : port ≤ 65535) :
    256 * (Fin.ofNat (port.toNat / 256) : Byte).val + (Fin.ofNat (port.toNat % 256) : Byte).val
      = port.toNat ∧
    (ip.length = 4 →
      writeReply writer rep (some (Addr.TCPAddr (some ip) port)) =
        ((writer.Write ([0x05, rep, 0x00, 0x01] ++ ip ++
            [Fin.ofNat (port.toNat / 256), Fin.ofNat (port.toNat % 256)])).1.2,
         (writer.Write ([0x05, rep, 0x00, 0x01] ++ ip ++
            [Fin.ofNat (port.toNat / 256), Fin.ofNat (port.toNat % 256)])).2)) ∧
    (ip.length = 16 → ip.take 12 = v4InV6Prefix →
      writeReply writer rep (some (Addr.TCPAddr (some ip) port)) =
        ((writer.Write ([0x05, rep, 0x00, 0x01] ++ ip.drop 12 ++
            [Fin.ofNat (port.toNat / 256), Fin.ofNat (port.toNat % 256)])).1.2,
         (writer.Write ([0x05, rep, 0x00, 0x01] ++ ip.drop 12 ++
            [Fin.ofNat (port.toNat / 256), Fin.ofNat (port.toNat % 256)])).2)) ∧
    (ip.length = 16 → ip.take 12 ≠ v4InV6Prefix →
      writeReply writer rep (some (Addr.TCPAddr (some ip) port)) =
        ((writer.Write ([0x05, rep, 0x00, 0x04] ++ ip ++
            [Fin.ofNat (port.toNat / 256), Fin.ofNat (port.toNat % 256)])).1.2,
         (writer.Write ([0x05, rep, 0x00, 0x04] ++ ip ++
            [Fin.ofNat (port.toNat / 256), Fin.ofNat (port.toNat % 256)])).2)) := by
  have hp : PutUint16 (toUint16 port)
      = [Fin.ofNat (port.toNat / 256), Fin.ofNat (port.toNat % 256)] := by
    rw [toUint16_of_port port h0 h1, PutUint16_eq]
  refine ⟨?_, fun h4 => ?_, fun h16 hm => ?_, fun h16 hm => ?_⟩
  · have hlt : port.toNat < 65536 := by omega
    simp only [Fin.ofNat, Nat.reduceAdd]
    omega
  · rw [writeReply_tcp, To4_of_length_four ip h4, hp]
  · rw [writeReply_tcp, To4_of_mapped ip h16 hm, hp]
  · rw [writeReply_tcp, To4_of_not_mapped ip h16 hm, hp]

theorem writeReply_bound_address_witness :
    writeReply ⟨[], none⟩ 0x00 (some (Addr.TCPAddr (some [0x7f, 0x00, 0x00, 0x01]) 54321)) =
      ((Writer.Write ⟨[], none⟩
          [0x05, 0x00, 0x00, 0x01, 0x7f, 0x00, 0x00, 0x01, 0xd4, 0x31]).1.2,
       (Writer.Write ⟨[], none⟩
          [0x05, 0x00, 0x00, 0x01, 0x7f, 0x00, 0x00, 0x01, 0xd4, 0x31]).2) ∧
    writeReply ⟨[], none⟩ 0x00 (some (Addr.TCPAddr
        (some [0, 0, 0, 0, 0, 0, 0, 0, 0, 0, 0xff, 0xff, 0x7f, 0x00, 0x00, 0x01]) 54321)) =
      ((Writer.Write ⟨[], none⟩
          [0x05, 0x00, 0x00, 0x01, 0x7f, 0x00, 0x00, 0x01, 0xd4, 0x31]).1.2,
       (Writer.Write ⟨[], none⟩
          [0x05, 0x00, 0x00, 0x01, 0x7f, 0x00, 0x00, 0x01, 0xd4, 0x31]).2) ∧
    writeReply ⟨[], none⟩ 0x00 (some (Addr.TCPAddr
        (some [0x20, 0x01, 0x0d, 0xb8, 0, 0, 0, 0, 0, 0, 0, 0, 0, 0, 0, 0x01]) 443)) =
      ((Writer.Write ⟨[], none⟩
          [0x05, 0x00, 0x00, 0x04, 0x20, 0x01, 0x0d, 0xb8, 0, 0, 0, 0, 0, 0, 0, 0, 0, 0, 0, 0x01,
            0x01, 0xbb]).1.2,
       (Writer.Write ⟨[], none⟩
          [0x05, 0x00, 0x00, 0x04, 0x20, 0x01, 0x0d, 0xb8, 0, 0, 0, 0, 0, 0, 0, 0, 0, 0, 0, 0x01,
            0x01, 0xbb]).2) :=
  ⟨(writeReply_bound_address ⟨[], none⟩ 0x00 [0x7f, 0x00, 0x00, 0x01] 54321
      (by decide) (by decide)).2.1 (by decide),
   (writeReply_bound_address ⟨[], none⟩ 0x00
      [0, 0, 0, 0, 0, 0, 0, 0, 0, 0, 0xff, 0xff, 0x7f, 0x00, 0x00, 0x01] 54321
      (by decide) (by decide)).2.2.1 (by decide) (by decide),
   (writeReply_bound_address ⟨[], none⟩ 0x00
      [0x20, 0x01, 0x0d, 0xb8, 0, 0, 0, 0, 0, 0, 0, 0, 0, 0, 0, 0x01] 443
      (by decide) (by decide)).2.2.2 (by decide) (by decide)⟩

/-- What `writeReply` does with the `nil` address. -/
theorem writeReply_nil (writer : Writer) (s : Byte) :
    writeReply writer s none =
      ((writer.Write [0x05, s, 0x00, 0x01, 0, 0, 0, 0, 0, 0]).1.2,
       (writer.Write [0x05, s, 0x00, 0x01, 0, 0, 0, 0, 0, 0]).2) := by
  simp only [writeReply, socks5Version, ipv4Addr]

/-- C9: for every status byte `s`, `writeReply` with no bound address makes exactly
one write, of the 10 bytes `[0x05, s, 0x00, 0x01, 0, 0, 0, 0, 0, 0]`, and returns
the error of that write. -/
theorem writeReply_no_address (writer : Writer) (s : Byte) :
    writeReply writer s none =
      ((writer.Write [0x05, s, 0x00, 0x01, 0, 0, 0, 0, 0, 0]).1.2,
       (writer.Write [0x05, s, 0x00, 0x01, 0, 0, 0, 0, 0, 0]).2) ∧
    writeReply ⟨writer.written, none⟩ s none =
      (none, ⟨writer.written ++ [0x05, s, 0x00, 0x01, 0, 0, 0, 0, 0, 0], none⟩) := by
  constructor
  · exact writeReply_nil writer s
  · rw [writeReply_nil]
    simp only [Writer.Write]


/-! ## `handleConnection`: claim C10 -/

/-- C10: on every client input made of an accepted handshake and a well-formed
`CONNECT` request, with a client that takes the handshake answer, if the dial to
the resolved `(host, port)` fails then `handleConnection` writes to the client
`[0x05, 0x00]` and then the reply `05 04 00 01 00 00 00 00 00 00` (all 12 bytes
when the client takes them), and returns with the dial attempted at the resolved
address, no target connection and no call of `proxyData`. -/
theorem handleConnection_dial_failure (dial : GoString → Option Conn) (clientConn : Conn)
    (N : Byte) (methods req rest : List Byte) (hlen : methods.length = N.val)
    (hm : (0x00 : Byte) ∈ methods) (hv : validRequest req = true)
    (hs : flatten clientConn.incoming = [0x05, N] ++ methods ++ req ++ rest)
    (hroom : clientConn.out.hasRoom 2 = true)
    (hdial : ∀ host port, (handleRequest ⟨req, []⟩).1 = .ok (host, port) →
      dial (JoinHostPort host (Itoa port)) = none) :
    (handleConnection dial clientConn).client.out =
      (Writer.Write (clientConn.out.Write [0x05, 0x00]).2
        [0x05, 0x04, 0x00, 0x01, 0, 0, 0, 0, 0, 0]).2 ∧
    (clientConn.out.hasRoom 12 = true →
      (handleConnection dial clientConn).client.out.written =
        clientConn.out.written ++ [0x05, 0x00] ++
          [0x05, 0x04, 0x00, 0x01, 0, 0, 0, 0, 0, 0]) ∧
    (∃ host port, (handleRequest ⟨req, []⟩).1 = .ok (host, port) ∧
      (handleConnection dial clientConn).dialed = some (JoinHostPort host (Itoa port))) ∧
    (handleConnection dial clientConn).target = none ∧
    (handleConnection dial clientConn).relayed = false := by
  have hs0 : (NewReader clientConn.incoming).stream = [0x05, N] ++ methods ++ (req ++ rest) := by
    simpa [NewReader, Reader.stream] using hs
  obtain ⟨r1, hr1, hh⟩ := handleHandshake_complete (NewReader clientConn.incoming)
    clientConn.out N methods (req ++ rest) hlen hs0
  rw [if_pos ((acceptableLoop_iff methods).2 hm)] at hh
  have hw := Writer.Write_of_hasRoom clientConn.out [0x05, 0x00] hroom
  rw [hw] at hh
  obtain ⟨host, port, r2, hreq, _, hres⟩ := handleRequest_valid r1 req rest hv hr1
  have hd := hdial host port hres
  have hrun : handleConnection dial clientConn =
      ⟨⟨r2.conn, (writeReply ⟨clientConn.out.written ++ [0x05, 0x00],
          clientConn.out.room.map (fun k => k - 2)⟩ repHostUnreachable none).2, false,
          clientConn.LocalAddr⟩, r2.buf, some (JoinHostPort host (Itoa port)), none, false⟩ := by
    simp [handleConnection, hh, hreq, hd]
  rw [hrun, hw]
  refine ⟨?_, fun h12 => ?_, ⟨host, port, hres, rfl⟩, rfl, rfl⟩
  · simp [writeReply_nil, repHostUnreachable]
  · have h10 : Writer.hasRoom ⟨clientConn.out.written ++ [0x05, 0x00],
        clientConn.out.room.map (fun k => k - 2)⟩ 10 = true := by
      unfold Writer.hasRoom at h12 ⊢
      cases hroom' : clientConn.out.room with
      | none => simp
      | some k =>
        rw [hroom'] at h12
        simp only [decide_eq_true_eq] at h12
        simp only [Option.map_some', decide_eq_true_eq]
        omega
    have hw2 := Writer.Write_of_hasRoom _ [0x05, 0x04, 0x00, 0x01, 0, 0, 0, 0, 0, 0] h10
    simp [writeReply_nil, repHostUnreachable, hw2]

theorem handleConnection_dial_failure_witness :
    (handleConnection (fun _ => none)
        ⟨[⟨0x05, [0x01, 0x00]⟩, ⟨0x05, [0x01, 0x00, 0x01, 0x7f, 0x00, 0x00, 0x01, 0x00, 0x50]⟩],
          ⟨[], none⟩, false, none⟩).client.out =
      (Writer.Write (Writer.Write ⟨[], none⟩ [0x05, 0x00]).2
        [0x05, 0x04, 0x00, 0x01, 0, 0, 0, 0, 0, 0]).2 ∧
    (Writer.hasRoom ⟨[], none⟩ 12 = true →
      (handleConnection (fun _ => none)
        ⟨[⟨0x05, [0x01, 0x00]⟩, ⟨0x05, [0x01, 0x00, 0x01, 0x7f, 0x00, 0x00, 0x01, 0x00, 0x50]⟩],
          ⟨[], none⟩, false, none⟩).client.out.written =
        [] ++ [0x05, 0x00] ++ [0x05, 0x04, 0x00, 0x01, 0, 0, 0, 0, 0, 0]) ∧
    (∃ host port,
      (handleRequest ⟨[0x05, 0x01, 0x00, 0x01, 0x7f, 0x00, 0x00, 0x01, 0x00, 0x50], []⟩).1
        = .ok (host, port) ∧
      (handleConnection (fun _ => none)
        ⟨[⟨0x05, [0x01, 0x00]⟩, ⟨0x05, [0x01, 0x00, 0x01, 0x7f, 0x00, 0x00, 0x01, 0x00, 0x50]⟩],
          ⟨[], none⟩, false, none⟩).dialed = some (JoinHostPort host (Itoa port))) ∧
    (handleConnection (fun _ => none)
        ⟨[⟨0x05, [0x01, 0x00]⟩, ⟨0x05, [0x01, 0x00, 0x01, 0x7f, 0x00, 0x00, 0x01, 0x00, 0x50]⟩],
          ⟨[], none⟩, false, none⟩).target = none ∧
    (handleConnection (fun _ => none)
        ⟨[⟨0x05, [0x01, 0x00]⟩, ⟨0x05, [0x01, 0x00, 0x01, 0x7f, 0x00, 0x00, 0x01, 0x00, 0x50]⟩],
          ⟨[], none⟩, false, none⟩).relayed = false :=
  handleConnection_dial_failure (fun _ => none)
    ⟨[⟨0x05, [0x01, 0x00]⟩, ⟨0x05, [0x01, 0x00, 0x01, 0x7f, 0x00, 0x00, 0x01, 0x00, 0x50]⟩],
      ⟨[], none⟩, false, none⟩
    0x01 [0x00] [0x05, 0x01, 0x00, 0x01, 0x7f, 0x00, 0x00, 0x01, 0x00, 0x50] []
    (by decide) (by decide) (by decide) (by decide) (by decide) (fun _ _ _ => rfl)

/-! ## The parsers and the cut of the stream into segments -/

theorem handleRequest_steps (reader : Reader) :
    handleRequest reader =
      andThen (ReadFull 4 reader) (fun reqHeader reader =>
        afterHeader (reqHeader.getD 0 0) (reqHeader.getD 1 0) (reqHeader.getD 3 0) reader) := by
  unfold handleRequest andThen afterHeader andThen
  rcases ReadFull 4 reader with ⟨_ | hdr, r0⟩
  · rfl
  · simp only
    split_ifs
    · rfl
    · rfl
    · rcases ReadFull IPv4len r0 with ⟨_ | addr, r1⟩
      · rfl
      · rcases h2 : ReadFull 2 r1 with ⟨_ | p, r2⟩ <;> simp only [h2]
    · rcases r0.ReadByte with ⟨_ | L, r1⟩
      · rfl
      · dsimp only
        rcases ReadFull L.val r1 with ⟨_ | name, r2⟩
        · rfl
        · dsimp only
          rcases h2 : ReadFull 2 r2 with ⟨_ | p, r3⟩ <;> simp only [h2]
    · rcases ReadFull IPv6len r0 with ⟨_ | addr, r1⟩
      · rfl
      · rcases h2 : ReadFull 2 r1 with ⟨_ | p, r2⟩ <;> simp only [h2]
    · rfl

theorem flatten_eq_nil (conn : List Segment) (h : flatten conn = []) : conn = [] := by
  cases conn with
  | nil => rfl
  | cons s ss => simp [flatten, Segment.toList] at h

theorem SameResult_error {α : Type} (e : Error) (r r' : Reader) (h : r.stream = r'.stream) :
    SameResult ((.error e, r) : Except Error α × Reader) (.error e, r') := ⟨rfl, h⟩

/-- What `ReadFull` returns, and the stream it leaves, depend on the stream only,
not on how it is cut into segments. -/
theorem ReadFull_same (n : Nat) (r r' : Reader) (h : r.stream = r'.stream) :
    SameResult (ReadFull n r) (ReadFull n r') := by
  by_cases hn : n ≤ r.stream.length
  · have hs : r.stream = r.stream.take n ++ r.stream.drop n := (List.take_append_drop n _).symm
    have hl : (r.stream.take n).length = n := by simp [hn]
    obtain ⟨r1, h1, hs1⟩ := ReadFull_ok r _ _ hs
    obtain ⟨r2, h2, hs2⟩ := ReadFull_ok r' _ _ (h.symm.trans hs)
    rw [hl] at h1 h2
    rw [h1, h2]
    exact ⟨rfl, by rw [hs1, hs2]⟩
  · have hlt : r.stream.length < n := by omega
    rw [ReadFull_short r n hlt, ReadFull_short r' n (by rw [← h]; exact hlt), h]
    exact ⟨rfl, rfl⟩

theorem ReadByte_same (r r' : Reader) (h : r.stream = r'.stream) :
    SameResult r.ReadByte r'.ReadByte := by
  cases hs : r.stream with
  | nil =>
    have e : ∀ q : Reader, q.stream = [] → q.ReadByte = (.error Error.EOF, ⟨[], []⟩) := by
      intro q hq
      obtain ⟨buf, conn⟩ := q
      simp only [Reader.stream, List.append_eq_nil] at hq
      obtain ⟨hb, hc⟩ := hq
      subst hb
      rw [flatten_eq_nil conn hc]
      rfl
    rw [e r hs, e r' (h.symm.trans hs)]
    exact ⟨rfl, rfl⟩
  | cons b rest =>
    obtain ⟨r1, h1, hs1⟩ := ReadByte_ok r b rest hs
    obtain ⟨r2, h2, hs2⟩ := ReadByte_ok r' b rest (h.symm.trans hs)
    rw [h1, h2]
    exact ⟨rfl, by rw [hs1, hs2]⟩

theorem andThen_same {α β : Type} (x y : Except Error α × Reader)
    (k : α → Reader → Except Error β × Reader) (hxy : SameResult x y)
    (hk : ∀ a r r', r.stream = r'.stream → SameResult (k a r) (k a r')) :
    SameResult (andThen x k) (andThen y k) := by
  obtain ⟨x1, x2⟩ := x
  obtain ⟨y1, y2⟩ := y
  obtain ⟨h1, h2⟩ := hxy
  simp only at h1 h2
  subst h1
  cases x1 with
  | error e => exact ⟨rfl, h2⟩
  | ok a => exact hk a x2 y2 h2

theorem afterHeader_same (ver cmd atyp : Byte) (r r' : Reader) (h : r.stream = r'.stream) :
    SameResult (afterHeader ver cmd atyp r) (afterHeader ver cmd atyp r') := by
  unfold afterHeader
  split_ifs
  · exact SameResult_error _ _ _ h
  · exact SameResult_error _ _ _ h
  · exact andThen_same _ _ _
      (andThen_same _ _ _ (ReadFull_same _ _ _ h) (fun _ _ _ hr => ⟨rfl, hr⟩))
      (fun _ _ _ hr => andThen_same _ _ _ (ReadFull_same _ _ _ hr) (fun _ _ _ hq => ⟨rfl, hq⟩))
  · exact andThen_same _ _ _
      (andThen_same _ _ _ (ReadByte_same _ _ h)
        (fun _ _ _ hr => andThen_same _ _ _ (ReadFull_same _ _ _ hr) (fun _ _ _ hq => ⟨rfl, hq⟩)))
      (fun _ _ _ hr => andThen_same _ _ _ (ReadFull_same _ _ _ hr) (fun _ _ _ hq => ⟨rfl, hq⟩))
  · exact andThen_same _ _ _
      (andThen_same _ _ _ (ReadFull_same _ _ _ h) (fun _ _ _ hr => ⟨rfl, hr⟩))
      (fun _ _ _ hr => andThen_same _ _ _ (ReadFull_same _ _ _ hr) (fun _ _ _ hq => ⟨rfl, hq⟩))
  · exact andThen_same _ _ _ (SameResult_error _ _ _ h)
      (fun _ _ _ hr => andThen_same _ _ _ (ReadFull_same _ _ _ hr) (fun _ _ _ hq => ⟨rfl, hq⟩))

/-- What `handleRequest` returns, and the stream it leaves, depend on the stream
only, not on how it is cut into segments. -/
theorem handleRequest_same (r r' : Reader) (h : r.stream = r'.stream) :
    SameResult (handleRequest r) (handleRequest r') := by
  rw [handleRequest_steps, handleRequest_steps]
  exact andThen_same _ _ _ (ReadFull_same 4 r r' h) (fun _ _ _ hr => afterHeader_same _ _ _ _ _ hr)

theorem ReadFull_extends (n : Nat) (r r' : Reader) (more : List Byte)
    (h : r'.stream = r.stream ++ more) : Extends more (ReadFull n r) (ReadFull n r') := by
  intro a ha
  by_cases hn : n ≤ r.stream.length
  · have hs : r.stream = r.stream.take n ++ r.stream.drop n := (List.take_append_drop n _).symm
    have hl : (r.stream.take n).length = n := by simp [hn]
    obtain ⟨r1, h1, hs1⟩ := ReadFull_ok r _ _ hs
    have hs' : r'.stream = r.stream.take n ++ (r.stream.drop n ++ more) := by
      rw [h, ← List.append_assoc, ← hs]
    obtain ⟨r2, h2, hs2⟩ := ReadFull_ok r' _ _ hs'
    rw [hl] at h1 h2
    rw [h1] at ha ⊢
    rw [h2]
    exact ⟨ha, by rw [hs1, hs2]⟩
  · rw [ReadFull_short r n (by omega)] at ha
    exact absurd ha (by simp)

theorem ReadByte_extends (r r' : Reader) (more : List Byte)
    (h : r'.stream = r.stream ++ more) : Extends more r.ReadByte r'.ReadByte := by
  intro a ha
  cases hs : r.stream with
  | nil =>
    obtain ⟨buf, conn⟩ := r
    simp only [Reader.stream, List.append_eq_nil] at hs
    obtain ⟨hb, hc⟩ := hs
    subst hb
    rw [flatten_eq_nil conn hc] at ha
    exact absurd ha (by simp [Reader.ReadByte])
  | cons b rest =>
    obtain ⟨r1, h1, hs1⟩ := ReadByte_ok r b rest hs
    obtain ⟨r2, h2, hs2⟩ := ReadByte_ok r' b (rest ++ more) (by rw [h, hs]; rfl)
    rw [h1] at ha ⊢
    rw [h2]
    exact ⟨ha, by rw [hs1, hs2]⟩

theorem andThen_extends {α β : Type} (more : List Byte) (x y : Except Error α × Reader)
    (k : α → Reader → Except Error β × Reader) (hxy : Extends more x y)
    (hk : ∀ a r r', r'.stream = r.stream ++ more → Extends more (k a r) (k a r')) :
    Extends more (andThen x k) (andThen y k) := by
  obtain ⟨x1, x2⟩ := x
  obtain ⟨y1, y2⟩ := y
  cases x1 with
  | error e => intro b hb; exact absurd hb (by simp [andThen])
  | ok a =>
    obtain ⟨h1, h2⟩ := hxy a rfl
    simp only at h1 h2
    subst h1
    exact hk a x2 y2 h2

theorem Extends_error {α : Type} (more : List Byte) (e : Error) (r : Reader)
    (y : Except Error α × Reader) : Extends more ((.error e, r) : Except Error α × Reader) y := by
  intro b hb
  exact absurd hb (by simp)

theorem Extends_ok {α : Type} (more : List Byte) (a : α) (r r' : Reader)
    (h : r'.stream = r.stream ++ more) :
    Extends more ((.ok a, r) : Except Error α × Reader) (.ok a, r') := by
  intro b hb
  exact ⟨hb, h⟩

theorem afterHeader_extends (ver cmd atyp : Byte) (r r' : Reader) (more : List Byte)
    (h : r'.stream = r.stream ++ more) :
    Extends more (afterHeader ver cmd atyp r) (afterHeader ver cmd atyp r') := by
  unfold afterHeader
  split_ifs
  · exact Extends_error _ _ _ _
  · exact Extends_error _ _ _ _
  · exact andThen_extends _ _ _ _
      (andThen_extends _ _ _ _ (ReadFull_extends _ _ _ _ h) (fun _ _ _ hr => Extends_ok _ _ _ _ hr))
      (fun _ _ _ hr => andThen_extends _ _ _ _ (ReadFull_extends _ _ _ _ hr)
        (fun _ _ _ hq => Extends_ok _ _ _ _ hq))
  · exact andThen_extends _ _ _ _
      (andThen_extends _ _ _ _ (ReadByte_extends _ _ _ h)
        (fun _ _ _ hr => andThen_extends _ _ _ _ (ReadFull_extends _ _ _ _ hr)
          (fun _ _ _ hq => Extends_ok _ _ _ _ hq)))
      (fun _ _ _ hr => andThen_extends _ _ _ _ (ReadFull_extends _ _ _ _ hr)
        (fun _ _ _ hq => Extends_ok _ _ _ _ hq))
  · exact andThen_extends _ _ _ _
      (andThen_extends _ _ _ _ (ReadFull_extends _ _ _ _ h) (fun _ _ _ hr => Extends_ok _ _ _ _ hr))
      (fun _ _ _ hr => andThen_extends _ _ _ _ (ReadFull_extends _ _ _ _ hr)
        (fun _ _ _ hq => Extends_ok _ _ _ _ hq))
  · exact andThen_extends _ _ _ _ (Extends_error _ _ _ _)
      (fun _ _ _ hr => andThen_extends _ _ _ _ (ReadFull_extends _ _ _ _ hr)
        (fun _ _ _ hq => Extends_ok _ _ _ _ hq))

/-- More bytes behind a request that `handleRequest` accepts change nothing: the
same result, and the added bytes are left unread. -/
theorem handleRequest_extends (r r' : Reader) (more : List Byte)
    (h : r'.stream = r.stream ++ more) : Extends more (handleRequest r) (handleRequest r') := by
  rw [handleRequest_steps, handleRequest_steps]
  exact andThen_extends _ _ _ _ (ReadFull_extends 4 r r' more h)
    (fun _ _ _ hr => afterHeader_extends _ _ _ _ _ _ hr)

/-- On a proper prefix of a well-formed request `handleRequest` returns no result. -/
theorem handleRequest_truncated (reader : Reader) (s more : List Byte)
    (hv : validRequest (s ++ more) = true) (hm : more ≠ []) (hs : reader.stream = s) :
    ∀ hp, (handleRequest reader).1 ≠ .ok hp := by
  intro hp hok
  obtain ⟨host, port, r1, h1, hs1, _⟩ :=
    handleRequest_valid ⟨s ++ more, []⟩ (s ++ more) [] hv (by simp [Reader.stream, flatten])
  have hx := handleRequest_extends reader ⟨s ++ more, []⟩ more
    (by rw [hs]; simp [Reader.stream, flatten]) hp hok
  rw [h1] at hx
  have hl := congrArg List.length hx.2
  rw [hs1, List.length_append] at hl
  have : more.length = 0 := by simp at hl; omega
  exact hm (List.length_eq_zero.1 this)

theorem validRequest_length (req : List Byte) (hv : validRequest req = true) :
    req.length = 4 + addressFieldLength req + 2 := by
  obtain ⟨rsv, c⟩ := validRequest_cases req hv
  rcases c with ⟨a, p, ha, hp, rfl⟩ | ⟨L, n, p, hn, hp, rfl⟩ | ⟨a, p, ha, hp, rfl⟩
  · simp [addressFieldLength, ha, hp]
  · simp [addressFieldLength, hn, hp]; omega
  · simp [addressFieldLength, ha, hp]


/-! ## Failing handshakes, writers, and the branches of `handleConnection` -/

/-- `handleHandshake` on a header with another version than 5. -/
theorem handleHandshake_version (reader : Reader) (writer : Writer) (ver n : Byte)
    (rest : List Byte) (hs : reader.stream = ver :: n :: rest) (hv : ver ≠ 0x05) :
    handleHandshake reader writer =
      (some (Error.New "unsupported SOCKS version"), (ReadFull 2 reader).2, writer) ∧
    (ReadFull 2 reader).2.stream = rest := by
  obtain ⟨r0, h0, hs0⟩ := ReadFull_ok reader [ver, n] rest hs
  have h0a : ReadFull 2 reader = (.ok [ver, n], r0) := h0
  unfold handleHandshake
  rw [h0a]
  simp [socks5Version, hv, hs0]

/-- `handleHandshake` when a read fails: the error is returned and nothing is
written. -/
theorem handleHandshake_short_header (reader : Reader) (writer : Writer)
    (h : reader.stream.length < 2) :
    handleHandshake reader writer =
      (some (if reader.stream = [] then Error.EOF else Error.ErrUnexpectedEOF), ⟨[], []⟩,
        writer) := by
  unfold handleHandshake
  rw [ReadFull_short reader 2 h]

theorem handleHandshake_short_methods (reader : Reader) (writer : Writer) (N : Byte)
    (ms : List Byte) (hs : reader.stream = 0x05 :: N :: ms) (h : ms.length < N.val) :
    handleHandshake reader writer =
      (some (if ms = [] then Error.EOF else Error.ErrUnexpectedEOF), ⟨[], []⟩, writer) := by
  obtain ⟨r0, h0, hs0⟩ := ReadFull_ok reader [0x05, N] ms hs
  have h0a : ReadFull 2 reader = (.ok [0x05, N], r0) := h0
  unfold handleHandshake
  rw [h0a]
  simp only [List.getD_cons_zero, List.getD_cons_succ, socks5Version, ne_eq,
    not_true_eq_false, if_false]
  rw [ReadFull_short r0 N.val (by rw [hs0]; exact h), hs0]

/-- When `handleHandshake` returns no error, it has made the write `[0x05, 0x00]`,
and that write has succeeded. -/
theorem handleHandshake_nil (reader : Reader) (writer : Writer)
    (h : (handleHandshake reader writer).1 = none) :
    (handleHandshake reader writer).2.2 = (writer.Write [0x05, 0x00]).2 ∧
    (writer.Write [0x05, 0x00]).1.2 = none := by
  revert h
  unfold handleHandshake
  rcases ReadFull 2 reader with ⟨_ | hdr, r0⟩
  · intro h; simp at h
  · dsimp only
    split_ifs with hver
    · intro h; simp at h
    · rcases ReadFull (hdr.getD 1 0).val r0 with ⟨_ | ms, r1⟩
      · intro h; simp at h
      · dsimp only
        split_ifs with hacc
        · intro h; simp at h
        · intro h; exact ⟨rfl, h⟩

theorem Writer.Write_of_no_error (w : Writer) (p : List Byte) (h : (w.Write p).1.2 = none) :
    (w.Write p).2.written = w.written ++ p := by
  unfold Writer.Write at h ⊢
  cases hr : w.room with
  | none => simp
  | some k =>
    rw [hr] at h
    by_cases hk : p.length ≤ k
    · simp [hk]
    · simp [hk] at h

theorem writeReply_of_no_error (w : Writer) (rep : Byte) (addr : Option Addr)
    (h : (writeReply w rep addr).1 = none) :
    (writeReply w rep addr).2.written = w.written ++ replyBytes rep addr := by
  unfold replyBytes
  rcases addr with _ | ⟨ip, port⟩ | _
  · rw [writeReply_nil] at h ⊢
    rw [writeReply_nil]
    rw [Writer.Write_of_no_error w _ h]
    simp [Writer.Write]
  · rcases ip with _ | ip
    · simp only [writeReply] at h ⊢
      rw [Writer.Write_of_no_error w _ h]
      simp [Writer.Write]
    · rw [writeReply_tcp] at h ⊢
      rw [writeReply_tcp]
      rw [Writer.Write_of_no_error w _ h]
      simp [Writer.Write]
  · simp [writeReply] at h

theorem ioCopy_written (segs : List Segment) :
    ∀ w : Writer, w.written <+: (ioCopy segs w).2.2.written := by
  induction segs with
  | nil => intro w; exact List.prefix_refl _
  | cons s ss ih =>
    intro w
    obtain ⟨k, hk⟩ := Writer.Write_written w s.toList
    have hp : w.written <+: (w.Write s.toList).2.written := by
      rw [hk]; exact List.prefix_append _ _
    unfold ioCopy
    rcases hw : w.Write s.toList with ⟨⟨n, _ | e⟩, w1⟩
    · rw [hw] at hp
      exact List.IsPrefix.trans hp (ih w1)
    · rw [hw] at hp
      exact hp

theorem hasRoom_after (w : Writer) (a b : Nat) (h : w.hasRoom (a + b) = true) :
    Writer.hasRoom ⟨w.written ++ [], w.room.map (fun k => k - a)⟩ b = true ∧
    w.hasRoom a = true := by
  unfold Writer.hasRoom at h ⊢
  cases hr : w.room with
  | none => simp
  | some k =>
    rw [hr] at h
    simp only [decide_eq_true_eq] at h
    simp only [Option.map, decide_eq_true_eq]
    omega

theorem ioCopy_of_hasRoom (segs : List Segment) :
    ∀ w : Writer, w.hasRoom (flatten segs).length = true →
      ioCopy segs w =
        (none, [], ⟨w.written ++ flatten segs,
          w.room.map (fun k => k - (flatten segs).length)⟩) := by
  induction segs with
  | nil =>
    intro w _
    cases hr : w.room <;> simp [ioCopy, flatten, hr] <;>
      (obtain ⟨wr, ro⟩ := w; simp at hr; subst hr; rfl)
  | cons s ss ih =>
    intro w h
    have hl : (flatten (s :: ss)).length = s.toList.length + (flatten ss).length := by
      simp [flatten]
    rw [hl] at h
    have h1 : w.hasRoom s.toList.length = true := (hasRoom_after w _ _ h).2
    have h2 : Writer.hasRoom ⟨w.written ++ s.toList,
        w.room.map (fun k => k - s.toList.length)⟩ (flatten ss).length = true := by
      have := (hasRoom_after w _ _ h).1
      unfold Writer.hasRoom at this ⊢
      exact this
    unfold ioCopy
    rw [Writer.Write_of_hasRoom w s.toList h1]
    dsimp only
    rw [ih _ h2, hl]
    cases hr : w.room with
    | none => simp [flatten]
    | some k => simp [flatten, Nat.sub_sub]

theorem Reader.WriteTo_of_hasRoom (r : Reader) (w : Writer)
    (h : w.hasRoom r.stream.length = true) :
    r.WriteTo w =
      (none, ⟨[], []⟩, ⟨w.written ++ r.stream, w.room.map (fun k => k - r.stream.length)⟩) := by
  have hl : r.stream.length = r.buf.length + (flatten r.conn).length := by
    simp [Reader.stream]
  rw [hl] at h
  have h1 : w.hasRoom r.buf.length = true := (hasRoom_after w _ _ h).2
  have h2 : Writer.hasRoom ⟨w.written ++ r.buf,
      w.room.map (fun k => k - r.buf.length)⟩ (flatten r.conn).length = true := by
    have := (hasRoom_after w _ _ h).1
    unfold Writer.hasRoom at this ⊢
    exact this
  unfold Reader.WriteTo
  by_cases hb : 0 < r.buf.length
  · rw [if_pos hb, Writer.Write_of_hasRoom w r.buf h1]
    dsimp only
    rw [ioCopy_of_hasRoom _ _ h2, hl]
    cases hr : w.room with
    | none => simp [Reader.stream]
    | some k => simp [Reader.stream, Nat.sub_sub]
  · have hb0 : r.buf = [] := List.length_eq_zero.1 (by omega)
    rw [if_neg hb]
    dsimp only
    rw [hb0] at h2 ⊢
    have h3 : w.hasRoom (flatten r.conn).length = true := by
      unfold Writer.hasRoom at h2 ⊢
      cases hr : w.room with
      | none => rfl
      | some k =>
        rw [hr] at h2
        simpa using h2
    rw [ioCopy_of_hasRoom _ _ h3]
    simp [Reader.stream, hb0]

/-- What `handleConnection` does when the handshake is accepted and `handleRequest`
fails. -/
theorem handleConnection_of_request_error (dial : GoString → Option Conn) (clientConn : Conn)
    (r1 r2 : Reader) (out1 : Writer) (e : Error)
    (hh : handleHandshake (NewReader clientConn.incoming) clientConn.out = (none, r1, out1))
    (hr : handleRequest r1 = (.error e, r2)) :
    handleConnection dial clientConn =
      ⟨⟨r2.conn, (writeReply out1 repServerFailure none).2, false, clientConn.LocalAddr⟩,
        r2.buf, none, none, false⟩ := by
  simp [handleConnection, hh, hr]

/-- What `handleConnection` does once the dial has succeeded and the success reply
has been written. -/
theorem handleConnection_of_reply (dial : GoString → Option Conn) (clientConn : Conn)
    (r1 r2 : Reader) (out1 out2 : Writer) (host : GoString) (port : Nat) (t0 : Conn)
    (hh : handleHandshake (NewReader clientConn.incoming) clientConn.out = (none, r1, out1))
    (hr : handleRequest r1 = (.ok (host, port), r2))
    (hd : dial (JoinHostPort host (Itoa port)) = some t0)
    (hw : writeReply out1 repSuccess t0.LocalAddr = (none, out2)) :
    handleConnection dial clientConn =
      if r2.Buffered > 0 then
        match r2.WriteTo t0.out with
        | (some _, reader, targetOut) =>
          ⟨⟨reader.conn, out2, false, clientConn.LocalAddr⟩, reader.buf,
            some (JoinHostPort host (Itoa port)), some { t0 with out := targetOut }, false⟩
        | (none, reader, targetOut) =>
          ⟨(proxyData ⟨reader.conn, out2, false, clientConn.LocalAddr⟩
              { t0 with out := targetOut }).1, reader.buf,
            some (JoinHostPort host (Itoa port)),
            some (proxyData ⟨reader.conn, out2, false, clientConn.LocalAddr⟩
              { t0 with out := targetOut }).2, true⟩
      else
        ⟨(proxyData ⟨r2.conn, out2, false, clientConn.LocalAddr⟩ t0).1, r2.buf,
          some (JoinHostPort host (Itoa port)),
          some (proxyData ⟨r2.conn, out2, false, clientConn.LocalAddr⟩ t0).2, true⟩ := by
  simp only [handleConnection, hh, hr, hd, hw]
  split_ifs with hb
  · rcases r2.WriteTo t0.out with ⟨_ | e, r3, tout⟩ <;> rfl
  · rfl


/-! ## `handleConnection`: claims C11 to C14 -/

/-- C11: on every client input whose handshake is accepted (`0x00` offered, the
client takes the answer) and whose following bytes make `handleRequest` fail,
whatever the cause, `handleConnection` writes to the client `[0x05, 0x00]` and then
the reply `05 01 00 01 00 00 00 00 00 00` (all 12 bytes when the client takes
them), and returns without a dial, a target connection or a call of `proxyData`. -/
theorem handleConnection_request_failure (dial : GoString → Option Conn) (clientConn : Conn)
    (N : Byte) (methods tail : List Byte) (e : Error) (hlen : methods.length = N.val)
    (hm : (0x00 : Byte) ∈ methods)
    (hs : flatten clientConn.incoming = [0x05, N] ++ methods ++ tail)
    (hroom : clientConn.out.hasRoom 2 = true)
    (hfail : (handleRequest ⟨tail, []⟩).1 = .error e) :
    (handleConnection dial clientConn).client.out =
      (Writer.Write (clientConn.out.Write [0x05, 0x00]).2
        [0x05, 0x01, 0x00, 0x01, 0, 0, 0, 0, 0, 0]).2 ∧
    (clientConn.out.hasRoom 12 = true →
      (handleConnection dial clientConn).client.out.written =
        clientConn.out.written ++ [0x05, 0x00] ++
          [0x05, 0x01, 0x00, 0x01, 0, 0, 0, 0, 0, 0]) ∧
    (handleConnection dial clientConn).dialed = none ∧
    (handleConnection dial clientConn).target = none ∧
    (handleConnection dial clientConn).relayed = false := by
  have hs0 : (NewReader clientConn.incoming).stream = [0x05, N] ++ methods ++ tail := by
    simpa [NewReader, Reader.stream] using hs
  obtain ⟨r1, hr1, hh⟩ := handleHandshake_complete (NewReader clientConn.incoming)
    clientConn.out N methods tail hlen hs0
  rw [if_pos ((acceptableLoop_iff methods).2 hm)] at hh
  have hw := Writer.Write_of_hasRoom clientConn.out [0x05, 0x00] hroom
  have hsame := handleRequest_same r1 ⟨tail, []⟩ (by rw [hr1]; simp [Reader.stream, flatten])
  have hr : handleRequest r1 = (.error e, (handleRequest r1).2) := by
    have h1 := hsame.1
    rw [hfail] at h1
    exact Prod.ext h1 rfl
  have hh' : handleHandshake (NewReader clientConn.incoming) clientConn.out
      = (none, r1, (clientConn.out.Write [0x05, 0x00]).2) := by
    rw [hh, hw]
  rw [handleConnection_of_request_error dial clientConn r1 _ _ e hh' hr]
  refine ⟨?_, fun h12 => ?_, rfl, rfl, rfl⟩
  · simp [writeReply_nil, repServerFailure]
  · rw [hw]
    have h10 : Writer.hasRoom ⟨clientConn.out.written ++ [0x05, 0x00],
        clientConn.out.room.map (fun k => k - 2)⟩ 10 = true := by
      unfold Writer.hasRoom at h12 ⊢
      cases hroom' : clientConn.out.room with
      | none => simp
      | some k =>
        rw [hroom'] at h12
        simp only [decide_eq_true_eq] at h12
        simp only [Option.map, decide_eq_true_eq]
        omega
    have hw2 := Writer.Write_of_hasRoom _ [0x05, 0x01, 0x00, 0x01, 0, 0, 0, 0, 0, 0] h10
    simp [writeReply_nil, repServerFailure, hw2]

set_option maxRecDepth 100000 in
theorem handleConnection_request_failure_witness :
    (handleConnection (fun _ => none)
        ⟨[⟨0x05, [0x01, 0x00, 0x05, 0x02]⟩, ⟨0x00, [0x01, 0x7f]⟩], ⟨[], none⟩, false,
          none⟩).client.out =
      (Writer.Write (Writer.Write ⟨[], none⟩ [0x05, 0x00]).2
        [0x05, 0x01, 0x00, 0x01, 0, 0, 0, 0, 0, 0]).2 ∧
    (Writer.hasRoom ⟨[], none⟩ 12 = true →
      (handleConnection (fun _ => none)
        ⟨[⟨0x05, [0x01, 0x00, 0x05, 0x02]⟩, ⟨0x00, [0x01, 0x7f]⟩], ⟨[], none⟩, false,
          none⟩).client.out.written =
        [] ++ [0x05, 0x00] ++ [0x05, 0x01, 0x00, 0x01, 0, 0, 0, 0, 0, 0]) ∧
    (handleConnection (fun _ => none)
        ⟨[⟨0x05, [0x01, 0x00, 0x05, 0x02]⟩, ⟨0x00, [0x01, 0x7f]⟩], ⟨[], none⟩, false,
          none⟩).dialed = none ∧
    (handleConnection (fun _ => none)
        ⟨[⟨0x05, [0x01, 0x00, 0x05, 0x02]⟩, ⟨0x00, [0x01, 0x7f]⟩], ⟨[], none⟩, false,
          none⟩).target = none ∧
    (handleConnection (fun _ => none)
        ⟨[⟨0x05, [0x01, 0x00, 0x05, 0x02]⟩, ⟨0x00, [0x01, 0x7f]⟩], ⟨[], none⟩, false,
          none⟩).relayed = false :=
  handleConnection_request_failure (fun _ => none)
    ⟨[⟨0x05, [0x01, 0x00, 0x05, 0x02]⟩, ⟨0x00, [0x01, 0x7f]⟩], ⟨[], none⟩, false, none⟩
    0x01 [0x00] [0x05, 0x02, 0x00, 0x01, 0x7f] (Error.New "unsupported command")
    (by decide) (by decide) (by decide) (by decide) (by decide)

/-- C12: in every run of `handleConnection`, without a target connection the relay
is not started; with one, dialled as `t0`, if the write of the success reply
fails then the target is left as the dial returned it and the relay is not
started, and if any byte has been written to the target or the relay has been
started then the write of the success reply had succeeded: what the client has
been sent begins with `[0x05, 0x00]` and the complete success reply. -/
theorem handleConnection_reply_before_target (dial : GoString → Option Conn)
    (clientConn : Conn) :
    ((handleConnection dial clientConn).target = none →
      (handleConnection dial clientConn).relayed = false) ∧
    (∀ t, (handleConnection dial clientConn).target = some t →
      ∃ destAddr t0, (handleConnection dial clientConn).dialed = some destAddr ∧
        dial destAddr = some t0 ∧
        ((writeReply (clientConn.out.Write [0x05, 0x00]).2 repSuccess t0.LocalAddr).1 ≠ none →
          t = t0 ∧ (handleConnection dial clientConn).relayed = false) ∧
        ((t.out.written ≠ t0.out.written ∨ (handleConnection dial clientConn).relayed = true) →
          (writeReply (clientConn.out.Write [0x05, 0x00]).2 repSuccess t0.LocalAddr).1 = none ∧
          (clientConn.out.written ++ [0x05, 0x00] ++ replyBytes repSuccess t0.LocalAddr) <+:
            (handleConnection dial clientConn).client.out.written)) := by
  rcases hh : handleHandshake (NewReader clientConn.incoming) clientConn.out with ⟨_ | e, r1, out1⟩
  swap
  · have ho : handleConnection dial clientConn =
        ⟨⟨r1.conn, out1, false, clientConn.LocalAddr⟩, r1.buf, none, none, false⟩ := by
      simp [handleConnection, hh]
    rw [ho]
    exact ⟨fun _ => rfl, fun t ht => by simp at ht⟩
  · have hn := handleHandshake_nil (NewReader clientConn.incoming) clientConn.out (by rw [hh])
    rw [hh] at hn
    obtain ⟨hout, hwn⟩ := hn
    simp only at hout
    have hw1 := Writer.Write_of_no_error clientConn.out _ hwn
    rcases hr : handleRequest r1 with ⟨e | ⟨host, port⟩, r2⟩
    · rw [handleConnection_of_request_error dial clientConn r1 r2 out1 e hh hr]
      exact ⟨fun _ => rfl, fun t ht => by simp at ht⟩
    · rcases hd : dial (JoinHostPort host (Itoa port)) with _ | t0
      · have ho : handleConnection dial clientConn =
            ⟨⟨r2.conn, (writeReply out1 repHostUnreachable none).2, false,
              clientConn.LocalAddr⟩, r2.buf, some (JoinHostPort host (Itoa port)), none,
              false⟩ := by
          simp [handleConnection, hh, hr, hd]
        rw [ho]
        exact ⟨fun _ => rfl, fun t ht => by simp at ht⟩
      · rcases hw : writeReply out1 repSuccess t0.LocalAddr with ⟨_ | e, out2⟩
        swap
        · have ho : handleConnection dial clientConn =
              ⟨⟨r2.conn, out2, false, clientConn.LocalAddr⟩, r2.buf,
                some (JoinHostPort host (Itoa port)), some t0, false⟩ := by
            simp [handleConnection, hh, hr, hd, hw]
          rw [ho]
          refine ⟨fun ht => by simp at ht, fun t ht => ⟨_, t0, rfl, hd, ?_, ?_⟩⟩
          · intro _
            simp only [Option.some.injEq] at ht
            exact ⟨ht.symm, rfl⟩
          · intro hc
            simp only [Option.some.injEq] at ht
            subst ht
            simp at hc
        · have hok : (writeReply (clientConn.out.Write [0x05, 0x00]).2 repSuccess
              t0.LocalAddr).1 = none := by rw [← hout, hw]
          have hpre : out2.written =
              clientConn.out.written ++ [0x05, 0x00] ++ replyBytes repSuccess t0.LocalAddr := by
            have := writeReply_of_no_error out1 repSuccess t0.LocalAddr (by rw [hw])
            rw [hw, hout, hw1] at this
            exact this
          rw [handleConnection_of_reply dial clientConn r1 r2 out1 out2 host port t0 hh hr hd hw]
          have hcopy : ∀ segs, out2.written <+: (ioCopy segs out2).2.2.written :=
            fun segs => ioCopy_written segs out2
          split_ifs with hb
          · rcases r2.WriteTo t0.out with ⟨_ | e, r3, tout⟩
            · refine ⟨fun ht => by simp at ht, fun t _ => ⟨_, t0, rfl, hd, ?_, ?_⟩⟩
              · intro hc; exact absurd hok hc
              · intro _; exact ⟨hok, by rw [← hpre]; exact hcopy _⟩
            · refine ⟨fun ht => by simp at ht, fun t _ => ⟨_, t0, rfl, hd, ?_, ?_⟩⟩
              · intro hc; exact absurd hok hc
              · intro _; exact ⟨hok, by rw [← hpre]⟩
          · refine ⟨fun ht => by simp at ht, fun t _ => ⟨_, t0, rfl, hd, ?_, ?_⟩⟩
            · intro hc; exact absurd hok hc
            · intro _; exact ⟨hok, by rw [← hpre]; exact hcopy _⟩

set_option maxRecDepth 100000 in
theorem handleConnection_reply_before_target_witness :
    (handleConnection
        (fun _ => some ⟨[⟨0x48, [0x49]⟩], ⟨[], none⟩, false,
          some (Addr.TCPAddr (some [0x7f, 0x00, 0x00, 0x01]) 54321)⟩)
        ⟨[⟨0x05, [0x01, 0x00]⟩,
          ⟨0x05, [0x01, 0x00, 0x01, 0x7f, 0x00, 0x00, 0x01, 0x00, 0x50, 0x47]⟩,
          ⟨0x45, [0x54]⟩], ⟨[], some 5⟩, false, none⟩).target =
      some ⟨[⟨0x48, [0x49]⟩], ⟨[], none⟩, false,
        some (Addr.TCPAddr (some [0x7f, 0x00, 0x00, 0x01]) 54321)⟩ ∧
    (handleConnection
        (fun _ => some ⟨[⟨0x48, [0x49]⟩], ⟨[], none⟩, false,
          some (Addr.TCPAddr (some [0x7f, 0x00, 0x00, 0x01]) 54321)⟩)
        ⟨[⟨0x05, [0x01, 0x00]⟩,
          ⟨0x05, [0x01, 0x00, 0x01, 0x7f, 0x00, 0x00, 0x01, 0x00, 0x50, 0x47]⟩,
          ⟨0x45, [0x54]⟩], ⟨[], some 5⟩, false, none⟩).relayed = false := by
  obtain ⟨_, t0, _, hd, h1, _⟩ :=
    (handleConnection_reply_before_target
      (fun _ => some ⟨[⟨0x48, [0x49]⟩], ⟨[], none⟩, false,
        some (Addr.TCPAddr (some [0x7f, 0x00, 0x00, 0x01]) 54321)⟩)
      ⟨[⟨0x05, [0x01, 0x00]⟩,
        ⟨0x05, [0x01, 0x00, 0x01, 0x7f, 0x00, 0x00, 0x01, 0x00, 0x50, 0x47]⟩,
        ⟨0x45, [0x54]⟩], ⟨[], some 5⟩, false, none⟩).2
      ⟨[⟨0x48, [0x49]⟩], ⟨[], none⟩, false,
        some (Addr.TCPAddr (some [0x7f, 0x00, 0x00, 0x01]) 54321)⟩ (by decide)
  simp only [Option.some.injEq] at hd
  subst hd
  exact ⟨by decide, (h1 (by decide)).2⟩

set_option maxRecDepth 100000 in
/-- C13, the code at the failing input: the client sends the handshake, then the
request with one more byte `47` in the same segment, then `45 54`. After the
request one byte is buffered, and the pre-relay step `reader.WriteTo(targetConn)`
writes the three bytes `47 45 54` and leaves the client connection at its
end-of-stream: it has read on from the connection. With a target that takes the
one buffered byte only, the step fails on the bytes it should not have read,
`proxyData` is never called and the client gets nothing from the target. -/
theorem handleConnection_flush_reads_to_end_of_stream :
    Reader.Buffered (handleRequest (handleHandshake (NewReader
        [⟨0x05, [0x01, 0x00]⟩,
          ⟨0x05, [0x01, 0x00, 0x01, 0x7f, 0x00, 0x00, 0x01, 0x00, 0x50, 0x47]⟩,
          ⟨0x45, [0x54]⟩]) ⟨[], none⟩).2.1).2 = 1 ∧
    Reader.WriteTo (handleRequest (handleHandshake (NewReader
        [⟨0x05, [0x01, 0x00]⟩,
          ⟨0x05, [0x01, 0x00, 0x01, 0x7f, 0x00, 0x00, 0x01, 0x00, 0x50, 0x47]⟩,
          ⟨0x45, [0x54]⟩]) ⟨[], none⟩).2.1).2 ⟨[], none⟩ =
      (none, ⟨[], []⟩, ⟨[0x47, 0x45, 0x54], none⟩) ∧
    (handleConnection
        (fun _ => some ⟨[⟨0x48, [0x49]⟩], ⟨[], some 1⟩, false,
          some (Addr.TCPAddr (some [0x7f, 0x00, 0x00, 0x01]) 54321)⟩)
        ⟨[⟨0x05, [0x01, 0x00]⟩,
          ⟨0x05, [0x01, 0x00, 0x01, 0x7f, 0x00, 0x00, 0x01, 0x00, 0x50, 0x47]⟩,
          ⟨0x45, [0x54]⟩], ⟨[], none⟩, false, none⟩).relayed = false ∧
    (handleConnection
        (fun _ => some ⟨[⟨0x48, [0x49]⟩], ⟨[], some 1⟩, false,
          some (Addr.TCPAddr (some [0x7f, 0x00, 0x00, 0x01]) 54321)⟩)
        ⟨[⟨0x05, [0x01, 0x00]⟩,
          ⟨0x05, [0x01, 0x00, 0x01, 0x7f, 0x00, 0x00, 0x01, 0x00, 0x50, 0x47]⟩,
          ⟨0x45, [0x54]⟩], ⟨[], none⟩, false, none⟩).client.out.written =
      [0x05, 0x00, 0x05, 0x00, 0x00, 0x01, 0x7f, 0x00, 0x00, 0x01, 0xd4, 0x31] := by
  decide

/-- C14: on every run that reaches the relay without I/O error (accepted handshake,
well-formed request, successful dial, success reply written, a target that takes
the bytes), the relay is started and the target has been written exactly the
client's bytes that follow the request, in their order, whether they were
buffered with the request or were still to be read from the connection. -/
theorem handleConnection_forwards_client_bytes (dial : GoString → Option Conn)
    (clientConn t0 : Conn) (N : Byte) (methods req rest : List Byte)
    (hlen : methods.length = N.val) (hm : (0x00 : Byte) ∈ methods)
    (hv : validRequest req = true)
    (hs : flatten clientConn.incoming = [0x05, N] ++ methods ++ req ++ rest)
    (hroom : clientConn.out.hasRoom 2 = true)
    (hdial : ∀ host port, (handleRequest ⟨req, []⟩).1 = .ok (host, port) →
      dial (JoinHostPort host (Itoa port)) = some t0)
    (hreply : (writeReply (clientConn.out.Write [0x05, 0x00]).2 repSuccess t0.LocalAddr).1 = none)
    (htarget : t0.out.hasRoom rest.length = true) :
    (handleConnection dial clientConn).relayed = true ∧
    (handleConnection dial clientConn).target.map (fun t => t.out.written) =
      some (t0.out.written ++ rest) := by
  have hs0 : (NewReader clientConn.incoming).stream = [0x05, N] ++ methods ++ (req ++ rest) := by
    simpa [NewReader, Reader.stream] using hs
  obtain ⟨r1, hr1, hh⟩ := handleHandshake_complete (NewReader clientConn.incoming)
    clientConn.out N methods (req ++ rest) hlen hs0
  rw [if_pos ((acceptableLoop_iff methods).2 hm)] at hh
  have hw := Writer.Write_of_hasRoom clientConn.out [0x05, 0x00] hroom
  have hh' : handleHandshake (NewReader clientConn.incoming) clientConn.out
      = (none, r1, (clientConn.out.Write [0x05, 0x00]).2) := by
    rw [hh, hw]
  obtain ⟨host, port, r2, hreq, hr2, hres⟩ := handleRequest_valid r1 req rest hv hr1
  have hd := hdial host port hres
  have hrep : writeReply (clientConn.out.Write [0x05, 0x00]).2 repSuccess t0.LocalAddr
      = (none, (writeReply (clientConn.out.Write [0x05, 0x00]).2 repSuccess t0.LocalAddr).2) :=
    Prod.ext hreply rfl
  rw [handleConnection_of_reply dial clientConn r1 r2 _ _ host port t0 hh' hreq hd hrep]
  by_cases hb : r2.Buffered > 0
  · rw [if_pos hb, Reader.WriteTo_of_hasRoom r2 t0.out (by rw [hr2]; exact htarget)]
    simp [proxyData, ioCopy, hr2]
  · rw [if_neg hb]
    have hb0 : r2.buf = [] := List.length_eq_zero.1 (by unfold Reader.Buffered at hb; omega)
    have hc : flatten r2.conn = rest := by
      rw [← hr2, Reader.stream, hb0]; rfl
    simp [proxyData, ioCopy_of_hasRoom r2.conn t0.out (by rw [hc]; exact htarget), hc]

set_option maxRecDepth 100000 in
theorem handleConnection_forwards_client_bytes_witness :
    (handleConnection
        (fun _ => some ⟨[⟨0x48, [0x49]⟩], ⟨[], none⟩, false,
          some (Addr.TCPAddr (some [0x7f, 0x00, 0x00, 0x01]) 54321)⟩)
        ⟨[⟨0x05, [0x01, 0x00]⟩,
          ⟨0x05, [0x01, 0x00, 0x01, 0x7f, 0x00, 0x00, 0x01, 0x00, 0x50, 0x47]⟩,
          ⟨0x45, [0x54]⟩], ⟨[], none⟩, false, none⟩).relayed = true ∧
    (handleConnection
        (fun _ => some ⟨[⟨0x48, [0x49]⟩], ⟨[], none⟩, false,
          some (Addr.TCPAddr (some [0x7f, 0x00, 0x00, 0x01]) 54321)⟩)
        ⟨[⟨0x05, [0x01, 0x00]⟩,
          ⟨0x05, [0x01, 0x00, 0x01, 0x7f, 0x00, 0x00, 0x01, 0x00, 0x50, 0x47]⟩,
          ⟨0x45, [0x54]⟩], ⟨[], none⟩, false, none⟩).target.map (fun t => t.out.written) =
      some ([] ++ [0x47, 0x45, 0x54]) :=
  handleConnection_forwards_client_bytes
    (fun _ => some ⟨[⟨0x48, [0x49]⟩], ⟨[], none⟩, false,
      some (Addr.TCPAddr (some [0x7f, 0x00, 0x00, 0x01]) 54321)⟩)
    ⟨[⟨0x05, [0x01, 0x00]⟩,
      ⟨0x05, [0x01, 0x00, 0x01, 0x7f, 0x00, 0x00, 0x01, 0x00, 0x50, 0x47]⟩,
      ⟨0x45, [0x54]⟩], ⟨[], none⟩, false, none⟩
    ⟨[⟨0x48, [0x49]⟩], ⟨[], none⟩, false,
      some (Addr.TCPAddr (some [0x7f, 0x00, 0x00, 0x01]) 54321)⟩
    0x01 [0x00] [0x05, 0x01, 0x00, 0x01, 0x7f, 0x00, 0x00, 0x01, 0x00, 0x50]
    [0x47, 0x45, 0x54]
    (by decide) (by decide) (by decide) (by decide) (by decide) (fun _ _ _ => rfl)
    (by decide) (by decide)


/-! ## Rejected and truncated messages, frames: claims C15 to C20 -/

/-- C15: on every handshake input of at least two bytes whose first byte is not
`0x05`, `handleHandshake` returns the error "unsupported SOCKS version" with the
reader as the read of the 2-byte header left it (no method byte is read) and the
writer untouched; `handleConnection` then returns with nothing written to the
client, no dial, no target connection and no relay. -/
theorem handleHandshake_rejects_version (dial : GoString → Option Conn) (clientConn : Conn)
    (reader : Reader) (writer : Writer) (ver n : Byte) (rest : List Byte)
    (hv : ver ≠ 0x05) (hs : reader.stream = ver :: n :: rest)
    (hc : flatten clientConn.incoming = ver :: n :: rest) :
    (handleHandshake reader writer).1 = some (Error.New "unsupported SOCKS version") ∧
    (handleHandshake reader writer).2.1 = (ReadFull 2 reader).2 ∧
    (handleHandshake reader writer).2.1.stream = rest ∧
    (handleHandshake reader writer).2.2 = writer ∧
    (handleConnection dial clientConn).client.out = clientConn.out ∧
    (handleConnection dial clientConn).dialed = none ∧
    (handleConnection dial clientConn).target = none ∧
    (handleConnection dial clientConn).relayed = false := by
  obtain ⟨h1, h2⟩ := handleHandshake_version reader writer ver n rest hs hv
  obtain ⟨h3, _⟩ := handleHandshake_version (NewReader clientConn.incoming) clientConn.out ver n
    rest (by simpa [NewReader, Reader.stream] using hc) hv
  rw [h1]
  refine ⟨rfl, rfl, h2, rfl, ?_, ?_, ?_, ?_⟩ <;> simp [handleConnection, h3]

theorem handleHandshake_rejects_version_witness :
    (handleHandshake ⟨[0x04], [⟨0x01, [0x00, 0x09]⟩]⟩ ⟨[0x07], none⟩).1
      = some (Error.New "unsupported SOCKS version") ∧
    (handleHandshake ⟨[0x04], [⟨0x01, [0x00, 0x09]⟩]⟩ ⟨[0x07], none⟩).2.1
      = (ReadFull 2 ⟨[0x04], [⟨0x01, [0x00, 0x09]⟩]⟩).2 ∧
    (handleHandshake ⟨[0x04], [⟨0x01, [0x00, 0x09]⟩]⟩ ⟨[0x07], none⟩).2.1.stream
      = [0x00, 0x09] ∧
    (handleHandshake ⟨[0x04], [⟨0x01, [0x00, 0x09]⟩]⟩ ⟨[0x07], none⟩).2.2 = ⟨[0x07], none⟩ ∧
    (handleConnection (fun _ => none)
      ⟨[⟨0x04, [0x01]⟩, ⟨0x00, [0x09]⟩], ⟨[], none⟩, false, none⟩).client.out = ⟨[], none⟩ ∧
    (handleConnection (fun _ => none)
      ⟨[⟨0x04, [0x01]⟩, ⟨0x00, [0x09]⟩], ⟨[], none⟩, false, none⟩).dialed = none ∧
    (handleConnection (fun _ => none)
      ⟨[⟨0x04, [0x01]⟩, ⟨0x00, [0x09]⟩], ⟨[], none⟩, false, none⟩).target = none ∧
    (handleConnection (fun _ => none)
      ⟨[⟨0x04, [0x01]⟩, ⟨0x00, [0x09]⟩], ⟨[], none⟩, false, none⟩).relayed = false :=
  handleHandshake_rejects_version (fun _ => none)
    ⟨[⟨0x04, [0x01]⟩, ⟨0x00, [0x09]⟩], ⟨[], none⟩, false, none⟩
    ⟨[0x04], [⟨0x01, [0x00, 0x09]⟩]⟩ ⟨[0x07], none⟩ 0x04 0x01 [0x00, 0x09]
    (by decide) (by decide) (by decide)

/-- `handleRequest` when the stream ends inside the header. -/
theorem handleRequest_short_header (reader : Reader) (h : reader.stream.length < 4) :
    handleRequest reader =
      (.error (if reader.stream = [] then Error.EOF else Error.ErrUnexpectedEOF), ⟨[], []⟩) := by
  rw [handleRequest_steps, ReadFull_short reader 4 h]
  rfl

/-- C16: a stream that ends before a message is complete makes the parser fail:
`handleHandshake` returns an error and writes nothing when fewer than 2 header
bytes or fewer than `N` method bytes are there, and `handleRequest` returns an
error when fewer than 4 header bytes are there, and no result on any proper prefix
of a well-formed request (the stream ends inside the header, the address field or
the port). -/
theorem truncated_message_fails (reader : Reader) (writer : Writer) :
    (reader.stream.length < 2 →
      (handleHandshake reader writer).1 =
        some (if reader.stream = [] then Error.EOF else Error.ErrUnexpectedEOF) ∧
      (handleHandshake reader writer).2.2 = writer) ∧
    (∀ (N : Byte) (ms : List Byte), reader.stream = 0x05 :: N :: ms → ms.length < N.val →
      (handleHandshake reader writer).1 =
        some (if ms = [] then Error.EOF else Error.ErrUnexpectedEOF) ∧
      (handleHandshake reader writer).2.2 = writer) ∧
    (reader.stream.length < 4 →
      (handleRequest reader).1 =
        .error (if reader.stream = [] then Error.EOF else Error.ErrUnexpectedEOF)) ∧
    (∀ more : List Byte, more ≠ [] → validRequest (reader.stream ++ more) = true →
      ∀ hp, (handleRequest reader).1 ≠ .ok hp) := by
  refine ⟨fun h => ?_, fun N ms hs h => ?_, fun h => ?_, fun more hm hv => ?_⟩
  · rw [handleHandshake_short_header reader writer h]
    exact ⟨rfl, rfl⟩
  · rw [handleHandshake_short_methods reader writer N ms hs h]
    exact ⟨rfl, rfl⟩
  · rw [handleRequest_short_header reader h]
  · exact handleRequest_truncated reader reader.stream more hv hm rfl

set_option maxRecDepth 100000 in
theorem truncated_message_fails_witness :
    ((handleHandshake ⟨[], [⟨0x05, []⟩]⟩ ⟨[0x07], none⟩).1 =
        some (if Reader.stream ⟨[], [⟨0x05, []⟩]⟩ = [] then Error.EOF
          else Error.ErrUnexpectedEOF) ∧
      (handleHandshake ⟨[], [⟨0x05, []⟩]⟩ ⟨[0x07], none⟩).2.2 = ⟨[0x07], none⟩) ∧
    ((handleHandshake ⟨[], [⟨0x05, [0x03]⟩, ⟨0x00, [0x02]⟩]⟩ ⟨[0x07], none⟩).1 =
        some (if [(0x00 : Byte), 0x02] = [] then Error.EOF else Error.ErrUnexpectedEOF) ∧
      (handleHandshake ⟨[], [⟨0x05, [0x03]⟩, ⟨0x00, [0x02]⟩]⟩ ⟨[0x07], none⟩).2.2
        = ⟨[0x07], none⟩) ∧
    (handleRequest ⟨[0x04], [⟨0x01, [0x00]⟩]⟩).1 =
      .error (if Reader.stream ⟨[0x04], [⟨0x01, [0x00]⟩]⟩ = [] then Error.EOF
        else Error.ErrUnexpectedEOF) ∧
    (∀ hp, (handleRequest ⟨[], [⟨0x05, [0x01, 0x00, 0x03, 0x0b, 0x65, 0x78]⟩]⟩).1 ≠ .ok hp) :=
  ⟨(truncated_message_fails ⟨[], [⟨0x05, []⟩]⟩ ⟨[0x07], none⟩).1 (by decide),
   (truncated_message_fails ⟨[], [⟨0x05, [0x03]⟩, ⟨0x00, [0x02]⟩]⟩ ⟨[0x07], none⟩).2.1
      0x03 [0x00, 0x02] (by decide) (by decide),
   (truncated_message_fails ⟨[0x04], [⟨0x01, [0x00]⟩]⟩ ⟨[], none⟩).2.2.1 (by decide),
   (truncated_message_fails ⟨[], [⟨0x05, [0x01, 0x00, 0x03, 0x0b, 0x65, 0x78]⟩]⟩
      ⟨[], none⟩).2.2.2 [0x61, 0x6d, 0x70, 0x6c, 0x65, 0x2e, 0x63, 0x6f, 0x6d, 0x01, 0xbb]
      (by decide) (by decide)⟩

/-- C18: on every stream `h ++ r ++ rest` with `h = [0x05, N, m_1..m_N]` an accepted
handshake and `r` a well-formed `CONNECT` request, `handleHandshake` consumes
the `2 + N` bytes of `h` and `handleRequest`, run on the same reader, consumes
the `4 + A + 2` bytes of `r` (`A` is 4, `1 + L` or 16), returns the resolution of
`r` and leaves exactly `rest` unread. -/
theorem handshake_then_request_frame (reader : Reader) (writer : Writer) (N : Byte)
    (methods req rest : List Byte) (hlen : methods.length = N.val)
    (hm : (0x00 : Byte) ∈ methods) (hv : validRequest req = true)
    (hs : reader.stream = [0x05, N] ++ methods ++ req ++ rest) :
    ([0x05, N] ++ methods).length = 2 + N.val ∧
    (handleHandshake reader writer).2.1.stream = req ++ rest ∧
    req.length = 4 + addressFieldLength req + 2 ∧
    (handleRequest (handleHandshake reader writer).2.1).1 = (handleRequest ⟨req, []⟩).1 ∧
    (∃ host port, (handleRequest (handleHandshake reader writer).2.1).1 = .ok (host, port)) ∧
    (handleRequest (handleHandshake reader writer).2.1).2.stream = rest := by
  have hs0 : reader.stream = [0x05, N] ++ methods ++ (req ++ rest) := by simpa using hs
  obtain ⟨r1, hr1, hh⟩ := handleHandshake_complete reader writer N methods (req ++ rest) hlen hs0
  rw [if_pos ((acceptableLoop_iff methods).2 hm)] at hh
  obtain ⟨host, port, r2, hreq, hr2, hres⟩ := handleRequest_valid r1 req rest hv hr1
  rw [hh]
  dsimp only
  rw [hreq, hres]
  exact ⟨by simp [hlen]; omega, hr1, validRequest_length req hv, rfl, ⟨host, port, rfl⟩, hr2⟩

set_option maxRecDepth 100000 in
theorem handshake_then_request_frame_witness :
    ([(0x05 : Byte), 0x02] ++ [0x02, 0x00]).length = 2 + (0x02 : Byte).val ∧
    (handleHandshake ⟨[0x05, 0x02, 0x02], [⟨0x00, [0x05, 0x01, 0x00, 0x03, 0x02, 0x61]⟩,
        ⟨0x62, [0x01, 0xbb, 0x47, 0x45]⟩]⟩ ⟨[], none⟩).2.1.stream =
      [0x05, 0x01, 0x00, 0x03, 0x02, 0x61, 0x62, 0x01, 0xbb] ++ [0x47, 0x45] ∧
    [(0x05 : Byte), 0x01, 0x00, 0x03, 0x02, 0x61, 0x62, 0x01, 0xbb].length =
      4 + addressFieldLength [0x05, 0x01, 0x00, 0x03, 0x02, 0x61, 0x62, 0x01, 0xbb] + 2 ∧
    (handleRequest (handleHandshake ⟨[0x05, 0x02, 0x02],
        [⟨0x00, [0x05, 0x01, 0x00, 0x03, 0x02, 0x61]⟩, ⟨0x62, [0x01, 0xbb, 0x47, 0x45]⟩]⟩
        ⟨[], none⟩).2.1).1 =
      (handleRequest ⟨[0x05, 0x01, 0x00, 0x03, 0x02, 0x61, 0x62, 0x01, 0xbb], []⟩).1 ∧
    (∃ host port, (handleRequest (handleHandshake ⟨[0x05, 0x02, 0x02],
        [⟨0x00, [0x05, 0x01, 0x00, 0x03, 0x02, 0x61]⟩, ⟨0x62, [0x01, 0xbb, 0x47, 0x45]⟩]⟩
        ⟨[], none⟩).2.1).1 = .ok (host, port)) ∧
    (handleRequest (handleHandshake ⟨[0x05, 0x02, 0x02],
        [⟨0x00, [0x05, 0x01, 0x00, 0x03, 0x02, 0x61]⟩, ⟨0x62, [0x01, 0xbb, 0x47, 0x45]⟩]⟩
        ⟨[], none⟩).2.1).2.stream = [0x47, 0x45] :=
  handshake_then_request_frame
    ⟨[0x05, 0x02, 0x02], [⟨0x00, [0x05, 0x01, 0x00, 0x03, 0x02, 0x61]⟩,
      ⟨0x62, [0x01, 0xbb, 0x47, 0x45]⟩]⟩ ⟨[], none⟩ 0x02 [0x02, 0x00]
    [0x05, 0x01, 0x00, 0x03, 0x02, 0x61, 0x62, 0x01, 0xbb] [0x47, 0x45]
    (by decide) (by decide) (by decide) (by decide)

/-- C19: for every status byte and every bound address that is absent or a TCP
address whose IP has 4 or 16 bytes, the bytes `writeReply` writes are a
well-formed reply: `0x05`, the status, `0x00`, then tag `0x01` with a total of 10
bytes or tag `0x04` with a total of 22 bytes. -/
theorem writeReply_well_formed (writer : Writer) (rep : Byte) (addr : Option Addr)
    (ha : addr = none ∨
      ∃ ip port, addr = some (Addr.TCPAddr (some ip) port) ∧ (ip.length = 4 ∨ ip.length = 16)) :
    ∃ res, writeReply writer rep addr = ((writer.Write res).1.2, (writer.Write res).2) ∧
      res.getD 0 0 = 0x05 ∧ res.getD 1 0 = rep ∧ res.getD 2 0 = 0x00 ∧
      ((res.getD 3 0 = 0x01 ∧ res.length = 10) ∨ (res.getD 3 0 = 0x04 ∧ res.length = 22)) := by
  rcases ha with rfl | ⟨ip, port, rfl, h4 | h16⟩
  · exact ⟨_, writeReply_nil writer rep, rfl, rfl, rfl, Or.inl ⟨rfl, rfl⟩⟩
  · refine ⟨_, writeReply_tcp writer rep ip port, ?_⟩
    rw [To4_of_length_four ip h4]
    simp [PutUint16, h4]
  · by_cases hm : ip.take 12 = v4InV6Prefix
    · refine ⟨_, writeReply_tcp writer rep ip port, ?_⟩
      rw [To4_of_mapped ip h16 hm]
      simp [PutUint16, h16]
    · refine ⟨_, writeReply_tcp writer rep ip port, ?_⟩
      rw [To4_of_not_mapped ip h16 hm]
      simp [PutUint16, h16]

theorem writeReply_well_formed_witness :
    ∃ res, writeReply ⟨[], none⟩ 0x00
        (some (Addr.TCPAddr (some [0x20, 0x01, 0x0d, 0xb8, 0, 0, 0, 0, 0, 0, 0, 0, 0, 0, 0, 1])
          443)) = ((Writer.Write ⟨[], none⟩ res).1.2, (Writer.Write ⟨[], none⟩ res).2) ∧
      res.getD 0 0 = 0x05 ∧ res.getD 1 0 = 0x00 ∧ res.getD 2 0 = 0x00 ∧
      ((res.getD 3 0 = 0x01 ∧ res.length = 10) ∨ (res.getD 3 0 = 0x04 ∧ res.length = 22)) :=
  writeReply_well_formed ⟨[], none⟩ 0x00
    (some (Addr.TCPAddr (some [0x20, 0x01, 0x0d, 0xb8, 0, 0, 0, 0, 0, 0, 0, 0, 0, 0, 0, 1]) 443))
    (Or.inr ⟨_, _, rfl, Or.inr (by decide)⟩)

/-- C20: `handleRequest` ignores the reserved byte: on two streams that differ in
the third byte only, it returns the same result or the same error, leaves the
same bytes unread and so consumes the same number of bytes. -/
theorem handleRequest_ignores_reserved (r1 r2 : Reader) (ver cmd rsv1 rsv2 : Byte)
    (t : List Byte) (h1 : r1.stream = ver :: cmd :: rsv1 :: t)
    (h2 : r2.stream = ver :: cmd :: rsv2 :: t) :
    (handleRequest r1).1 = (handleRequest r2).1 ∧
    (handleRequest r1).2.stream = (handleRequest r2).2.stream ∧
    r1.stream.length - (handleRequest r1).2.stream.length =
      r2.stream.length - (handleRequest r2).2.stream.length := by
  have key : (handleRequest r1).1 = (handleRequest r2).1 ∧
      (handleRequest r1).2.stream = (handleRequest r2).2.stream := by
    rw [handleRequest_steps, handleRequest_steps]
    cases t with
    | nil =>
      rw [ReadFull_short r1 4 (by simp [h1]), ReadFull_short r2 4 (by simp [h2]), h1, h2]
      exact ⟨rfl, rfl⟩
    | cons atyp t =>
      obtain ⟨q1, e1, s1⟩ := ReadFull_ok r1 [ver, cmd, rsv1, atyp] t h1
      obtain ⟨q2, e2, s2⟩ := ReadFull_ok r2 [ver, cmd, rsv2, atyp] t h2
      have e1a : ReadFull 4 r1 = (.ok [ver, cmd, rsv1, atyp], q1) := e1
      have e2a : ReadFull 4 r2 = (.ok [ver, cmd, rsv2, atyp], q2) := e2
      rw [e1a, e2a]
      exact afterHeader_same ver cmd atyp q1 q2 (by rw [s1, s2])
  refine ⟨key.1, key.2, ?_⟩
  rw [key.2, h1, h2]
  simp

theorem handleRequest_ignores_reserved_witness :
    (handleRequest ⟨[], [⟨0x05, [0x01, 0x00, 0x01, 0x7f, 0x00]⟩,
        ⟨0x00, [0x01, 0x00, 0x50, 0x47]⟩]⟩).1 =
      (handleRequest ⟨[0x05, 0x01, 0xaa], [⟨0x01, [0x7f, 0x00, 0x00, 0x01, 0x00, 0x50,
        0x47]⟩]⟩).1 ∧
    (handleRequest ⟨[], [⟨0x05, [0x01, 0x00, 0x01, 0x7f, 0x00]⟩,
        ⟨0x00, [0x01, 0x00, 0x50, 0x47]⟩]⟩).2.stream =
      (handleRequest ⟨[0x05, 0x01, 0xaa], [⟨0x01, [0x7f, 0x00, 0x00, 0x01, 0x00, 0x50,
        0x47]⟩]⟩).2.stream ∧
    (Reader.stream ⟨[], [⟨0x05, [0x01, 0x00, 0x01, 0x7f, 0x00]⟩,
        ⟨0x00, [0x01, 0x00, 0x50, 0x47]⟩]⟩).length -
      (handleRequest ⟨[], [⟨0x05, [0x01, 0x00, 0x01, 0x7f, 0x00]⟩,
        ⟨0x00, [0x01, 0x00, 0x50, 0x47]⟩]⟩).2.stream.length =
    (Reader.stream ⟨[0x05, 0x01, 0xaa], [⟨0x01, [0x7f, 0x00, 0x00, 0x01, 0x00, 0x50,
        0x47]⟩]⟩).length -
      (handleRequest ⟨[0x05, 0x01, 0xaa], [⟨0x01, [0x7f, 0x00, 0x00, 0x01, 0x00, 0x50,
        0x47]⟩]⟩).2.stream.length :=
  handleRequest_ignores_reserved
    ⟨[], [⟨0x05, [0x01, 0x00, 0x01, 0x7f, 0x00]⟩, ⟨0x00, [0x01, 0x00, 0x50, 0x47]⟩]⟩
    ⟨[0x05, 0x01, 0xaa], [⟨0x01, [0x7f, 0x00, 0x00, 0x01, 0x00, 0x50, 0x47]⟩]⟩
    0x05 0x01 0x00 0xaa [0x01, 0x7f, 0x00, 0x00, 0x01, 0x00, 0x50, 0x47]
    (by decide) (by decide)

end GoSocks5
